import Mathlib

/-!
Verification development for the story-scraper repository.

The Python sources under `src/storyscraper/` are shallowly embedded as
executable Lean definitions: pure string manipulation is translated
directly, container library calls (`urllib.parse`, `str` methods,
`re` searches with concrete patterns) are reimplemented with the same
observable behaviour on the inputs the program handles, and the points
where a function consumes a parsed HTML tree are either modelled by an
explicit document tree type (see `Node`) or, where a claim only concerns
the logic after a CSS-selector lookup, by passing the lookup's result as
an argument (each such boundary is documented on the definition).
-/

/-! ## Python string and truthiness primitives -/

/-- Python truthiness of an optional string: `None` and `""` are falsy. -/
def pyTruthy : Option String → Bool
  | none => false
  | some s => s ≠ ""

/-- Python `a or b` on optional strings. -/
def pyOr (a b : Option String) : Option String :=
  if pyTruthy a then a else b

/-- Python `str.isspace` members relevant to `str.strip()` (ASCII subset;
the sources only strip ASCII whitespace). -/
def isPyWs (c : Char) : Bool :=
  c = ' ' || c = '\t' || c = '\n' || c = '\r' || c = '\x0b' || c = '\x0c'

/-- `str.strip()` on a character list. -/
def stripChars (l : List Char) : List Char :=
  ((l.dropWhile isPyWs).reverse.dropWhile isPyWs).reverse

/-- Python `str.strip()`. -/
def pyStrip (s : String) : String := String.mk (stripChars s.data)

/-- Python `str.lower()` (ASCII case folding; the inputs the sources
lower-case are URLs and markup keywords). -/
def pyLower (s : String) : String := String.mk (s.data.map Char.toLower)

/-- `pat` occurs as a contiguous substring of `l` (Python `pat in s`). -/
def containsSub (l pat : List Char) : Bool :=
  match l, pat with
  | _, [] => true
  | [], _ :: _ => false
  | _ :: t, p :: ps => List.isPrefixOf (p :: ps) l || containsSub t (p :: ps)

/-- Python `s.startswith(pre)`. -/
def strStartsWith (s pre : String) : Bool := List.isPrefixOf pre.data s.data

/-- Python `s.endswith(suf)`. -/
def strEndsWith (s suf : String) : Bool := List.isSuffixOf suf.data s.data

/-- Python `s.rstrip("/")`. -/
def rstripSlashes (s : String) : String :=
  String.mk ((s.data.reverse.dropWhile (· = '/')).reverse)

/-- Split a character list at every occurrence of `sep`
(Python `s.split(sep)` for a one-character separator). -/
def splitChar (sep : Char) : List Char → List (List Char)
  | [] => [[]]
  | c :: t =>
    if c = sep then [] :: splitChar sep t
    else
      match splitChar sep t with
      | [] => [[c]]
      | seg :: rest => (c :: seg) :: rest

/-- `str.split` on `'/'` returning strings. -/
def splitSlash (s : String) : List String := (splitChar '/' s.data).map String.mk

/-- Join with a one-character separator (Python `sep.join(parts)`). -/
def joinWith (sep : String) (parts : List String) : String :=
  String.intercalate sep parts

/-! ## `urllib.parse.urlparse` (scheme/netloc/path/query/fragment)

The embedding follows CPython's `urlsplit`: an initial `scheme:` is
recognised when the text before the first `:` is a nonempty run of
scheme characters starting with a letter; a netloc follows `//` up to
the next `/`, `?` or `#`; the fragment is split at the first `#` and the
query at the first `?`.  The `params` component (split on `;`) is not
modelled; none of the URLs the program manipulates carry params. -/

structure ParseResult where
  scheme : String
  netloc : String
  path : String
  query : String
  fragment : String
deriving DecidableEq, Repr

def isSchemeChar (c : Char) : Bool :=
  c.isAlpha || c.isDigit || c = '+' || c = '-' || c = '.'

def urlparse (url : String) : ParseResult :=
  let l := url.data
  -- scheme
  let (schemeChars, rest) :=
    let pre := l.takeWhile (· ≠ ':')
    let post := l.dropWhile (· ≠ ':')
    match post with
    | [] => (([] : List Char), l)
    | _ :: t =>
      match pre with
      | [] => (([] : List Char), l)
      | c :: _ => if c.isAlpha && pre.all isSchemeChar then (pre, t) else (([] : List Char), l)
  -- netloc
  let (netlocChars, rest2) :=
    if List.isPrefixOf ['/', '/'] rest then
      let r := rest.drop 2
      (r.takeWhile (fun c => c ≠ '/' && c ≠ '?' && c ≠ '#'),
       r.dropWhile (fun c => c ≠ '/' && c ≠ '?' && c ≠ '#'))
    else (([] : List Char), rest)
  -- fragment
  let beforeFrag := rest2.takeWhile (· ≠ '#')
  let fragChars := (rest2.dropWhile (· ≠ '#')).drop 1
  -- query
  let pathChars := beforeFrag.takeWhile (· ≠ '?')
  let queryChars := (beforeFrag.dropWhile (· ≠ '?')).drop 1
  { scheme := String.mk (schemeChars.map Char.toLower)
    netloc := String.mk netlocChars
    path := String.mk pathChars
    query := String.mk queryChars
    fragment := String.mk fragChars }

/-! ## `urllib.parse.urljoin`

Follows CPython's resolution for the relative-capable schemes the
program uses (`http`, `https`): an absolute reference with a different
scheme is returned unchanged; a reference with an authority keeps it;
an empty path keeps the base path (and base query when the reference
has none); otherwise the paths are merged and `.`/`..` segments are
resolved exactly as CPython does (empty interior segments dropped,
`..` popping past the root silently ignored, a trailing `.`/`..`
adding a trailing slash). -/

def urlunsplit (scheme netloc path query fragment : String) : String :=
  let url :=
    if netloc ≠ "" || strStartsWith path "//" then
      (if path ≠ "" && ¬ strStartsWith path "/" then "//" ++ netloc ++ "/" ++ path
       else "//" ++ netloc ++ path)
    else path
  let url := if scheme ≠ "" then scheme ++ ":" ++ url else url
  let url := if query ≠ "" then url ++ "?" ++ query else url
  if fragment ≠ "" then url ++ "#" ++ fragment else url

/-- Resolve `.`/`..` path segments (the loop body of CPython `urljoin`). -/
def resolveSegments (segments : List String) : List String :=
  segments.foldl
    (fun resolved seg =>
      if seg = ".." then resolved.dropLast
      else if seg = "." then resolved
      else resolved ++ [seg])
    []

/-- Drop empty interior segments (`segments[1:-1] = filter(None, ...)`). -/
def filterInterior (segments : List String) : List String :=
  match segments with
  | [] => []
  | [s] => [s]
  | s :: r :: rest =>
    s :: (((r :: rest).dropLast).filter (· ≠ "")) ++ [(r :: rest).getLast (by simp)]

def urljoin (base url : String) : String :=
  if base = "" then url
  else if url = "" then base
  else
    let b := urlparse base
    let u := urlparse url
    if u.scheme ≠ "" && u.scheme ≠ b.scheme then url
    else
      let scheme := if u.scheme ≠ "" then u.scheme else b.scheme
      if u.netloc ≠ "" then
        urlunsplit scheme u.netloc u.path u.query u.fragment
      else
        let netloc := b.netloc
        if u.path = "" then
          urlunsplit scheme netloc b.path
            (if u.query ≠ "" then u.query else b.query) u.fragment
        else
          let baseParts :=
            let parts := splitSlash b.path
            if parts.getLast? = some "" then parts else parts.dropLast
          let segments :=
            if strStartsWith u.path "/" then splitSlash u.path
            else baseParts ++ splitSlash u.path
          let segments := filterInterior segments
          let resolved := resolveSegments segments
          let resolved :=
            if segments.getLast? = some "." ∨ segments.getLast? = some ".." then
              resolved ++ [""]
            else resolved
          let path := joinWith "/" resolved
          let path := if path = "" then "/" else path
          urlunsplit scheme netloc path u.query u.fragment

/-! ## `fetchers/auto.py` — generic discoverer URL selection

`Fetcher._extract_links` walks the parsed page for `<a href=...>`
values; the claims quantify over an arbitrary collection of scraped
hrefs, so the functions below take that collection as an argument and
embed everything from `_filter_links` down. -/

/-- `_compute_base_directory` (via `PurePosixPath` normalisation:
empty and `.` components collapse, `parent` drops the last component). -/
def compute_base_directory (path : String) : String :=
  let normalized := if path = "" then "/" else path
  let isAbs := strStartsWith normalized "/"
  let comps := (splitSlash normalized).filter (fun s => s ≠ "" && s ≠ ".")
  let dirComps := if strEndsWith normalized "/" then comps else comps.dropLast
  let directoryStr :=
    if isAbs then "/" ++ joinWith "/" dirComps
    else if dirComps = [] then "." else joinWith "/" dirComps
  let directoryStr := if directoryStr = "" ∨ directoryStr = "." then "/" else directoryStr
  let directoryStr :=
    if strStartsWith directoryStr "/" then directoryStr else "/" ++ directoryStr
  if strEndsWith directoryStr "/" then directoryStr else directoryStr ++ "/"

/-- `_in_scope`: same scheme, same netloc, path under the base directory. -/
def in_scope (baseParsed candidateParsed : ParseResult) (baseDir : String) : Bool :=
  baseParsed.scheme == candidateParsed.scheme
    && baseParsed.netloc == candidateParsed.netloc
    && strStartsWith candidateParsed.path baseDir

/-- `_canonicalize_url`: append `index.html` to directory-style paths. -/
def canonicalize_url (url : String) : Option String :=
  let parsed := urlparse url
  let path := parsed.path
  let newPath :=
    if path = "" ∨ strEndsWith path "/" then
      (if ¬ strEndsWith path "/" then path ++ "/" else path) ++ "index.html"
    else path
  some (urljoin url newPath)

/-- `_urls_equal`: scheme, netloc and slash-insensitive path comparison. -/
def urls_equal (left right : String) : Bool :=
  let pl := urlparse left
  let pr := urlparse right
  pl.scheme == pr.scheme && pl.netloc == pr.netloc
    && rstripSlashes pl.path == rstripSlashes pr.path

/-- The `add_url` closure inside `_filter_links`. -/
def add_url (ordered : List String) (url : String) : List String :=
  if url ∈ ordered then ordered else ordered ++ [url]

/-- The first loop of `_filter_links`: resolve each href against the base
URL and keep in-scope absolutes, first occurrence first. -/
def collect_in_scope (base : String) (hrefs : List String) : List String :=
  let parsedBase := urlparse base
  let baseDir := compute_base_directory parsedBase.path
  hrefs.foldl
    (fun ordered href =>
      let absolute := urljoin base href
      if in_scope parsedBase (urlparse absolute) baseDir then add_url ordered absolute
      else ordered)
    []

/-- `Fetcher._filter_links`. -/
def filter_links (base : String) (hrefs : List String)
    (canonicalUrl : Option String) : List String :=
  let ordered := collect_in_scope base hrefs
  let selfUrls := base :: (match canonicalUrl with | some c => [c] | none => [])
  ordered.filter (fun url => ¬ selfUrls.any (fun selfUrl => urls_equal url selfUrl))

/-- `Fetcher._select_urls` of the generic fetcher, applied to the hrefs
scraped from the page. -/
def auto_select_urls (baseUrl : String) (hrefs : List String) : List String :=
  filter_links baseUrl hrefs (canonicalize_url baseUrl)

/-! ## `urlclassifier.py`

Each registry entry's regex has the shape
`https?://(?:www\.)?<host-and-path-prelude>` with `re.IGNORECASE` and is
applied with `re.search`, i.e. it matches anywhere in the string.  Such
a pattern matches exactly when the lower-cased URL contains one of the
four literal prefixes `http://`/`https://` times optional `www.`
followed by the entry's host-and-path text (for Patreon additionally
followed by a digit, from the trailing `\d+`). -/

/-- `needle` occurs in `l` immediately followed by a decimal digit. -/
def occursFollowedByDigit : List Char → List Char → Bool
  | [], _ => false
  | c :: t, pat =>
    (List.isPrefixOf pat (c :: t) && (((c :: t).drop pat.length).headD 'x').isDigit)
      || occursFollowedByDigit t pat

/-- `re.search` of `https?://(?:www\.)?<suffix>` with `re.IGNORECASE`. -/
def hostPatternMatch (suffix : String) (url : String) : Bool :=
  let u := (pyLower url).data
  ["http://", "https://"].any fun s =>
    ["", "www."].any fun w => containsSub u (s ++ w ++ suffix).data

/-- `re.search` of `https?://(?:www\.)?<suffix>\d+` with `re.IGNORECASE`. -/
def hostPatternMatchDigit (suffix : String) (url : String) : Bool :=
  let u := (pyLower url).data
  ["http://", "https://"].any fun s =>
    ["", "www."].any fun w => occursFollowedByDigit u (s ++ w ++ suffix).data

/-- `SiteRule`: configuration for a single site match. -/
structure SiteRule where
  pattern : String → Bool
  name : String
  full_name : String
  fetch_agent : Option String := none
  transform_agent : Option String := none
  packaging_agent : Option String := none
  documentation : Option String := none

/-- `SiteMatch`: result of classifying a URL. -/
structure SiteMatch where
  name : String
  full_name : String
  fetch_agent : Option String
  transform_agent : Option String
  packaging_agent : Option String
  documentation : Option String := none
deriving DecidableEq

/-- `_iter_rules`: all site rules in priority order. -/
def iter_rules : List SiteRule :=
  [ { pattern := hostPatternMatch "literotica.com/"
      name := "literotica", full_name := "Literotica"
      fetch_agent := some "literotica_fetcher"
      transform_agent := some "literotica_transformer"
      documentation := some "Stories hosted on literotica.com." },
    { pattern := hostPatternMatch "bdsmlibrary.com/stories/"
      name := "bdsmlibrary", full_name := "BDSM Library"
      fetch_agent := some "bdsmlibrary_fetcher"
      transform_agent := some "bdsmlibrary_transformer"
      documentation := some "Stories hosted on bdsmlibrary.com." },
    { pattern := hostPatternMatch "inkitt.com/stories/"
      name := "inkitt", full_name := "Inkitt"
      fetch_agent := some "inkitt_fetcher"
      transform_agent := some "inkitt_transformer"
      documentation := some "Stories hosted on inkitt.com." },
    { pattern := hostPatternMatchDigit "patreon.com/collection/"
      name := "patreon", full_name := "Patreon"
      fetch_agent := some "patreon_fetcher"
      transform_agent := some "patreon_transformer"
      documentation := some "Public Patreon collections (requires cookies for gated posts)." },
    { pattern := hostPatternMatch "mcstories.com/"
      name := "mcstories", full_name := "The Erotic Mind-Control Story Archive"
      fetch_agent := some "mcstories_fetcher"
      transform_agent := some "mcstories_transformer"
      documentation := some "Stories hosted on mcstories.com." },
    { pattern := hostPatternMatch "wattpad.com/"
      name := "wattpad", full_name := "Wattpad"
      fetch_agent := some "wattpad_fetcher"
      transform_agent := some "wattpad_transformer"
      documentation := some "Stories hosted on wattpad.com." },
    { pattern := hostPatternMatch "archiveofourown.org/"
      name := "ao3", full_name := "Archive of Our Own"
      fetch_agent := some "ao3_fetcher"
      transform_agent := some "ao3_transformer"
      documentation := some "Stories hosted on archiveofourown.org." },
    { pattern := hostPatternMatch "fanfiction.net/"
      name := "fanfiction", full_name := "FanFiction.Net"
      fetch_agent := some "fanfiction_fetcher"
      transform_agent := some "fanfiction_transformer"
      documentation := some "Stories hosted on fanfiction.net." } ]

/-- Build the `SiteMatch` returned for a winning rule. -/
def rule_to_match (rule : SiteRule) : SiteMatch :=
  { name := rule.name
    full_name := rule.full_name
    fetch_agent := rule.fetch_agent
    transform_agent := rule.transform_agent
    packaging_agent := rule.packaging_agent
    documentation := rule.documentation }

/-- `classify_url`: scan the registry in order, return the first match. -/
def classify_url (url : String) : Option SiteMatch :=
  (iter_rules.find? (fun rule => rule.pattern url)).map rule_to_match

/-! ## `options.py` — `StoryScraperOptions`, `slugify`, effective accessors

Only the metadata fields that discovery reads and writes are modelled;
the CLI bookkeeping fields (`fetch_agent`, `force_fetch`, `verbose`,
...) play no role in the claims and are omitted. -/

structure StoryScraperOptions where
  name : Option String
  slug : Option String
  author : Option String
  chosen_name : Option String
  chosen_slug : Option String
  chosen_author : Option String
deriving DecidableEq

/-- `a or b or default` on Python optional strings. -/
def pyOrD (a b : Option String) (default : String) : String :=
  (pyOr (pyOr a b) (some default)).getD default

/-- `effective_name`: user-specified name, else derived, else `"Story"`. -/
def StoryScraperOptions.effective_name (o : StoryScraperOptions) : String :=
  pyOrD o.name o.chosen_name "Story"

/-- `effective_slug`: user-specified slug, else derived, else `"story"`. -/
def StoryScraperOptions.effective_slug (o : StoryScraperOptions) : String :=
  pyOrD o.slug o.chosen_slug "story"

/-- `effective_author`: user-specified author, else derived, else `"Unknown"`. -/
def StoryScraperOptions.effective_author (o : StoryScraperOptions) : String :=
  pyOrD o.author o.chosen_author "Unknown"

/-- `[a-z0-9]`, the characters `slugify` keeps. -/
def isSlugChar (c : Char) : Bool :=
  ('a' ≤ c && c ≤ 'z') || ('0' ≤ c && c ≤ '9')

/-- Replace every maximal run of non-`[a-z0-9]` characters by one `-`
(the `re.sub(r"[^a-z0-9]+", "-", ...)` step); the flag records whether
the previous character was part of such a run. -/
def collapseInvalidRuns : Bool → List Char → List Char
  | _, [] => []
  | inRun, c :: t =>
    if isSlugChar c then c :: collapseInvalidRuns false t
    else if inRun then collapseInvalidRuns true t
    else '-' :: collapseInvalidRuns true t

/-- `slugify`: lower-case, collapse invalid runs to `-`, strip `-`,
default `"story"`. -/
def slugify (value : String) : String :=
  let collapsed := collapseInvalidRuns false (pyLower value).data
  let slug := ((collapsed.dropWhile (· = '-')).reverse.dropWhile (· = '-')).reverse
  if slug = [] then "story" else String.mk slug

/-! ## Site metadata-enrichment steps

Each site fetcher enriches the options after listing.  The CSS-selector
and JSON lookups feeding these steps run against the fetched page; the
functions below take the lookup results as arguments (`none` = element
or key absent, `some s` = its extracted text) and embed the option
rewriting faithfully. -/

/-- Results of the two lookups inside `#funbar-story span.info` on a
Wattpad page: `get_text(strip=True)` of `h2.title` and of `span.author`,
when those elements exist. -/
structure WattpadFunbarInfo where
  title_tag : Option String
  author_tag : Option String
deriving DecidableEq

/-- `wattpad_fetcher.Fetcher.postprocess_listing`.  `info` is
`soup.select_one("#funbar-story span.info")`. -/
def wattpad_postprocess_listing (options : StoryScraperOptions)
    (info : Option WattpadFunbarInfo) : StoryScraperOptions :=
  match info with
  | none => options
  | some info =>
    let new_options :=
      match info.title_tag with
      | none => options
      | some title_text =>
        if title_text = "" then options
        else
          let name := pyOr options.name (some title_text)
          let (slug, chosen_slug) :=
            if ¬ pyTruthy options.slug then
              let slug_candidate := slugify ((pyOr name (some title_text)).getD title_text)
              (some slug_candidate, some slug_candidate)
            else (options.slug, options.chosen_slug)
          { options with
              name := name
              slug := slug
              chosen_name := some title_text
              chosen_slug := pyOr chosen_slug (some (slugify title_text)) }
    match info.author_tag with
    | none => new_options
    | some raw_author =>
      let author_text :=
        if strStartsWith (pyLower raw_author) "by " then String.mk (raw_author.data.drop 3)
        else raw_author
      let author_text := pyStrip author_text
      if author_text = "" then new_options
      else
        { new_options with
            author := pyOr options.author (some author_text)
            chosen_author := some author_text }

/-- The headline/author pair read out of a ld+json `Article` block
(`headline` key; `author.name` key), as consumed by the Inkitt fetcher. -/
structure InkittArticleMetadata where
  headline : Option String
  author_name : Option String
deriving DecidableEq

/-- `inkitt_fetcher.Fetcher._update_options_from_metadata`. -/
def inkitt_update_options_from_metadata (options : StoryScraperOptions)
    (metadata : Option InkittArticleMetadata) : StoryScraperOptions :=
  match metadata with
  | none => options
  | some metadata =>
    let new_options :=
      match metadata.headline with
      | none => options
      | some rawHeadline =>
        if pyStrip rawHeadline = "" then options
        else
          let headline := pyStrip rawHeadline
          let new_options :=
            { options with
                name := pyOr options.name (some headline)
                chosen_name := some headline }
          if ¬ pyTruthy options.slug then
            { new_options with
                slug := some (slugify headline)
                chosen_slug := some (slugify headline) }
          else if ¬ pyTruthy options.chosen_slug then
            { new_options with chosen_slug := some (slugify headline) }
          else new_options
    match metadata.author_name with
    | none => new_options
    | some rawAuthor =>
      if pyStrip rawAuthor = "" then new_options
      else
        let author := pyStrip rawAuthor
        { new_options with
            author := pyOr options.author (some author)
            chosen_author := some author }

/-- The `name`/`headline`/`author` keys of the metadata dictionaries the
Patreon fetcher builds (each key present only when its extractor found a
truthy value, mirroring the dict-building code). -/
structure PatreonMetadata where
  name : Option String
  headline : Option String
  author : Option String
deriving DecidableEq

/-- Python `{**left, **right}` on the modelled metadata keys: keys of
`right` win, keys absent from `right` survive from `left`. -/
def patreonDictMerge (left right : PatreonMetadata) : PatreonMetadata :=
  { name := right.name <|> left.name
    headline := right.headline <|> left.headline
    author := right.author <|> left.author }

/-- Lines 46–50 of `patreon_fetcher.Fetcher.list_phase`: the three
metadata tiers are combined as
`metadata = ldjson or next_data; ...; if fallback: metadata = {**(metadata or {}), **fallback}`. -/
def patreon_combine_metadata (ldjson next_data title_fallback : Option PatreonMetadata) :
    Option PatreonMetadata :=
  let metadata := ldjson <|> next_data
  match title_fallback with
  | none => metadata
  | some fallback =>
    some (patreonDictMerge (metadata.getD { name := none, headline := none, author := none })
      fallback)

/-- `patreon_fetcher.Fetcher._update_options_from_metadata`. -/
def patreon_update_options_from_metadata (options : StoryScraperOptions)
    (metadata : Option PatreonMetadata) : StoryScraperOptions :=
  match metadata with
  | none => options
  | some metadata =>
    let headlineValue := pyOr metadata.name metadata.headline
    let new_options :=
      match headlineValue with
      | none => options
      | some rawHeadline =>
        if pyStrip rawHeadline = "" then options
        else
          let headline := pyStrip rawHeadline
          let new_options :=
            { options with
                name := pyOr options.name (some headline)
                chosen_name := some headline }
          if ¬ pyTruthy options.slug then
            { new_options with
                slug := some (slugify headline)
                chosen_slug := some (slugify headline) }
          else if ¬ pyTruthy options.chosen_slug then
            { new_options with chosen_slug := some (slugify headline) }
          else new_options
    match metadata.author with
    | none => new_options
    | some rawAuthor =>
      if pyStrip rawAuthor = "" then new_options
      else
        let author := pyStrip rawAuthor
        { new_options with
            author := pyOr options.author (some author)
            chosen_author := some author }

/-- `ao3_fetcher.Fetcher.postprocess_listing`.  The two arguments are
`get_text(strip=True)` of `soup.select_one("h2.title")` and of
`soup.select_one("a[rel='author']")`, when present. -/
def ao3_postprocess_listing (options : StoryScraperOptions)
    (title_tag author_tag : Option String) : StoryScraperOptions :=
  let updated :=
    match title_tag with
    | none => options
    | some title_text =>
      if title_text = "" then options
      else
        let name := pyOr options.name (some title_text)
        let (slug, chosen_slug) :=
          if ¬ pyTruthy options.slug then
            let slug_candidate := slugify ((pyOr name (some title_text)).getD title_text)
            (some slug_candidate, some slug_candidate)
          else (options.slug, options.chosen_slug)
        { options with
            name := name
            slug := slug
            chosen_name := some title_text
            chosen_slug := pyOr chosen_slug (some (slugify title_text)) }
  match author_tag with
  | none => updated
  | some author_text =>
    if author_text = "" then updated
    else
      { updated with
          author := pyOr options.author (some author_text)
          chosen_author := some author_text }

/-! ## `fetchers/wattpad_fetcher.py` — table-of-contents URL selection -/

/-- One `<a href=...>` inside the Wattpad table of contents.
`locked` is `_is_locked`: a `blocked` class on the anchor or a
`.fa-lock` descendant. -/
structure WattpadAnchor where
  href : String
  locked : Bool
deriving DecidableEq

/-- A Wattpad listing page: the optional
`soup.select_one("ul.table-of-contents")` subtree (as its anchor list)
together with all scraped page hrefs for the generic fallback path. -/
structure WattpadPage where
  toc : Option (List WattpadAnchor)
  hrefs : List String
deriving DecidableEq

/-- The loop body over the table-of-contents anchors in
`wattpad_fetcher.Fetcher._select_urls` (`seen` and `ordered` always
hold the same URLs, so the `seen` set is represented by `ordered`). -/
def wattpad_toc_step (base_url : String) (acc : List String × Nat)
    (anchor : WattpadAnchor) : List String × Nat :=
  let (ordered, locked) := acc
  if anchor.locked then (ordered, locked + 1)
  else if pyStrip anchor.href = "" then (ordered, locked)
  else
    let absolute := urljoin base_url anchor.href
    if absolute ∈ ordered then (ordered, locked)
    else (ordered ++ [absolute], locked)

/-- The table-of-contents loop of `wattpad_fetcher.Fetcher._select_urls`:
URL list and locked count. -/
def wattpad_toc_scan (base_url : String) (anchors : List WattpadAnchor) :
    List String × Nat :=
  anchors.foldl (wattpad_toc_step base_url) ([], 0)

/-- `wattpad_fetcher.Fetcher._select_urls`, returning the selected URL
list together with the locked-anchor count driving the warning. -/
def wattpad_select_urls (base_url : String) (page : WattpadPage) :
    List String × Nat :=
  match page.toc with
  | none => (auto_select_urls base_url page.hrefs, 0)
  | some anchors =>
    let (ordered, locked) := wattpad_toc_scan base_url anchors
    (if ordered = [] then auto_select_urls base_url page.hrefs else ordered, locked)

/-- The `warnings.warn` call guarded by `if locked:` in
`wattpad_fetcher.Fetcher._select_urls`. -/
def wattpad_warnings (locked : Nat) : List String :=
  if locked ≠ 0 then
    ["Wattpad: skipped " ++ toString locked
      ++ " locked chapter(s); unlock them to download the full story."]
  else []

/-! ## `fetchers/inkitt_fetcher.py` — chapter-dropdown URL selection -/

/-- One `<li>` of the Inkitt chapter dropdown: the optional
`a.chapter-link[href]` anchor and whether a `.chapter-patron-icon`
descendant marks the entry locked. -/
structure InkittChapterItem where
  anchor_href : Option String
  patron_icon : Bool
deriving DecidableEq

/-- An Inkitt story page: the optional
`ul.nav.nav-list.chapter-list-dropdown` subtree and the page hrefs for
the generic fallback. -/
structure InkittPage where
  chapter_list : Option (List InkittChapterItem)
  hrefs : List String
deriving DecidableEq

/-- The loop body over the dropdown `<li>` items in
`inkitt_fetcher.Fetcher._extract_chapters`. -/
def inkitt_item_step (base_url : String) (acc : List String × Nat)
    (li : InkittChapterItem) : List String × Nat :=
  let (ordered, locked) := acc
  match li.anchor_href with
  | none => (ordered, locked)
  | some href =>
    if pyStrip href = "" then (ordered, locked)
    else
      let absolute := urljoin base_url href
      if li.patron_icon then (ordered, locked + 1)
      else if absolute ∈ ordered then (ordered, locked)
      else (ordered ++ [absolute], locked)

/-- `inkitt_fetcher.Fetcher._extract_chapters`: the ordered chapter URLs
and the locked-entry count. -/
def inkitt_extract_chapters (base_url : String) (page : InkittPage) :
    List String × Nat :=
  match page.chapter_list with
  | none => (auto_select_urls base_url page.hrefs, 0)
  | some items => items.foldl (inkitt_item_step base_url) ([], 0)

/-- The `warnings.warn` call guarded by `if locked_count:` in
`inkitt_fetcher.Fetcher.list_phase`. -/
def inkitt_warnings (locked : Nat) : List String :=
  if locked ≠ 0 then
    ["Inkitt: skipped " ++ toString locked
      ++ " locked chapter(s); unlock them to download the full story."]
  else []

/-! ## `fetchers/ao3_fetcher.py` — EPUB link selection and fetch fallback -/

/-- `ao3_fetcher.Fetcher._select_urls`.  `download_links` lists the
`href` values of the elements matching `li.download a[href*='epub']` in
document order (`select_one` takes the first); a raised `ValueError`
is the `Except.error` case. -/
def ao3_select_urls (base_url : String) (download_links : List String) :
    Except String (List String) :=
  match download_links with
  | [] => .error "Unable to locate EPUB download link on AO3 page."
  | href :: _ =>
    if pyStrip href = "" then .error "Invalid EPUB link on AO3 page."
    else .ok [urljoin base_url href]

/-- The guard at the top of `ao3_fetcher.Fetcher.fetch_phase`: a
download list without exactly one URL warns and delegates to the
generic fetch behaviour (`True` = generic fallback used). -/
def ao3_fetch_phase_uses_fallback (urls : List String) : Bool :=
  urls.length ≠ 1

/-- The warning emitted by that guard. -/
def ao3_fetch_phase_warnings (urls : List String) : List String :=
  if urls.length ≠ 1 then
    ["AO3 fetcher expected exactly one EPUB URL; falling back to auto behavior."]
  else []

/-! ## `transformers/literotica_transformer.py` — pageText extraction

`_PAGETEXT_RE = re.compile(r'pageText:"((?:\\.|[^"\\])*)"')` applied
with `findall`: scan left to right, at each occurrence of the literal
`pageText:"` read escape pairs (`\` plus any character) and plain
non-quote non-backslash characters up to the closing `"`, yield the
group, and continue after the match. -/

def pageTextMarker : List Char := "pageText:\"".data

/-- Read the regex group `((?:\\.|[^"\\])*)` followed by the closing
quote: returns the group and the suffix after the quote. -/
def parseStringGroup : List Char → Option (List Char × List Char)
  | [] => none
  | c :: rest =>
    if c = '"' then some ([], rest)
    else if c = '\\' then
      match rest with
      | [] => none
      | c2 :: rest2 => (parseStringGroup rest2).map (fun p => (c :: c2 :: p.1, p.2))
    else (parseStringGroup rest).map (fun p => (c :: p.1, p.2))

/-- `findall` scan; `fuel` bounds the recursion by the input length
(each step consumes at least one character). -/
def findPageTextsGo : Nat → List Char → List (List Char)
  | 0, _ => []
  | _ + 1, [] => []
  | fuel + 1, c :: t =>
    if List.isPrefixOf pageTextMarker (c :: t) then
      match parseStringGroup ((c :: t).drop pageTextMarker.length) with
      | some (g, rest) => g :: findPageTextsGo fuel rest
      | none => findPageTextsGo fuel t
    else findPageTextsGo fuel t

def findPageTexts (l : List Char) : List (List Char) :=
  findPageTextsGo l.length l

/-! `codecs.decode(raw, "unicode_escape")`: CPython encodes the string
to UTF-8 bytes, then decodes escapes over those bytes, mapping plain
bytes through latin-1.  Escapes: the single-character C escapes, `\`
plus newline (dropped), up to three octal digits, `\xHH`, `\uHHHH`,
`\UHHHHHHHH`; an unknown escape keeps the backslash and the character;
truncated hex escapes and a trailing backslash raise (here: `none`).
Named escapes (`\N{...}`) and escapes denoting lone surrogates are not
modelled and also map to `none`; the program's pageText payloads do not
use them. -/

def utf8Encode (c : Char) : List Nat :=
  let n := c.toNat
  if n < 0x80 then [n]
  else if n < 0x800 then [0xC0 + n / 64, 0x80 + n % 64]
  else if n < 0x10000 then [0xE0 + n / 4096, 0x80 + (n / 64) % 64, 0x80 + n % 64]
  else [0xF0 + n / 262144, 0x80 + (n / 4096) % 64, 0x80 + (n / 64) % 64, 0x80 + n % 64]

/-- The UTF-8 bytes of a string, as latin-1 characters. -/
def toByteChars (l : List Char) : List Char :=
  l.flatMap (fun c => (utf8Encode c).map Char.ofNat)

def hexDigitVal (c : Char) : Option Nat :=
  let n := c.toNat
  if 48 ≤ n ∧ n ≤ 57 then some (n - 48)
  else if 97 ≤ n ∧ n ≤ 102 then some (n - 87)
  else if 65 ≤ n ∧ n ≤ 70 then some (n - 55)
  else none

def octDigitVal (c : Char) : Option Nat :=
  if '0' ≤ c && c ≤ '7' then some (c.toNat - '0'.toNat) else none

def hexValOf (digits : List Char) : Option Nat :=
  digits.foldl
    (fun acc c => acc.bind (fun a => (hexDigitVal c).map (fun v => a * 16 + v)))
    (some 0)

/-- A code point the model can represent (no lone surrogates). -/
def mkScalarChar (n : Nat) : Option Char :=
  if n < 0xD800 ∨ (0xE000 ≤ n ∧ n ≤ 0x10FFFF) then some (Char.ofNat n) else none

/-- Consume up to two further octal digits after a first digit of value
`v1`, returning the code point and the unconsumed suffix. -/
def octTail (v1 : Nat) (t : List Char) : Nat × List Char :=
  match t with
  | d2 :: t2 =>
    match octDigitVal d2 with
    | some v2 =>
      match t2 with
      | d3 :: t3 =>
        match octDigitVal d3 with
        | some v3 => (v1 * 64 + v2 * 8 + v3, t3)
        | none => (v1 * 8 + v2, t2)
      | [] => (v1 * 8 + v2, [])
    | none => (v1, t)
  | [] => (v1, [])

/-- The escape-decoding scan; `fuel` bounds the recursion by the input
length (each step consumes at least one character). -/
def unicodeUnescapeBytesGo : Nat → List Char → Option (List Char)
  | _, [] => some []
  | 0, _ :: _ => none
  | fuel + 1, '\\' :: rest =>
    match rest with
    | [] => none
    | e :: t =>
      match e, t with
      | '\n', _ => unicodeUnescapeBytesGo fuel t
      | '\\', _ => (unicodeUnescapeBytesGo fuel t).map (List.cons '\\')
      | '\'', _ => (unicodeUnescapeBytesGo fuel t).map (List.cons '\'')
      | '"', _ => (unicodeUnescapeBytesGo fuel t).map (List.cons '"')
      | 'a', _ => (unicodeUnescapeBytesGo fuel t).map (List.cons '\x07')
      | 'b', _ => (unicodeUnescapeBytesGo fuel t).map (List.cons '\x08')
      | 'f', _ => (unicodeUnescapeBytesGo fuel t).map (List.cons '\x0c')
      | 'n', _ => (unicodeUnescapeBytesGo fuel t).map (List.cons '\n')
      | 'r', _ => (unicodeUnescapeBytesGo fuel t).map (List.cons '\x0d')
      | 't', _ => (unicodeUnescapeBytesGo fuel t).map (List.cons '\t')
      | 'v', _ => (unicodeUnescapeBytesGo fuel t).map (List.cons '\x0b')
      | 'x', h1 :: h2 :: t2 => do
        let v ← hexValOf [h1, h2]
        let r ← unicodeUnescapeBytesGo fuel t2
        pure (Char.ofNat v :: r)
      | 'x', _ => none
      | 'u', h1 :: h2 :: h3 :: h4 :: t2 => do
        let v ← hexValOf [h1, h2, h3, h4]
        let c ← mkScalarChar v
        let r ← unicodeUnescapeBytesGo fuel t2
        pure (c :: r)
      | 'u', _ => none
      | 'U', h1 :: h2 :: h3 :: h4 :: h5 :: h6 :: h7 :: h8 :: t2 => do
        let v ← hexValOf [h1, h2, h3, h4, h5, h6, h7, h8]
        let c ← mkScalarChar v
        let r ← unicodeUnescapeBytesGo fuel t2
        pure (c :: r)
      | 'U', _ => none
      | 'N', _ => none
      | _, _ =>
        match octDigitVal e with
        | some v1 =>
          let (v, t') := octTail v1 t
          (unicodeUnescapeBytesGo fuel t').map (List.cons (Char.ofNat v))
        | none => (unicodeUnescapeBytesGo fuel t).map (fun l => '\\' :: e :: l)
  | fuel + 1, c :: rest => (unicodeUnescapeBytesGo fuel rest).map (List.cons c)

def unicodeUnescape (raw : List Char) : Option (List Char) :=
  let bytes := toByteChars raw
  unicodeUnescapeBytesGo bytes.length bytes

/-- `str.replace("\r\n", "\n")` followed by `str.replace("\r", "\n")`. -/
def replaceCrlf : List Char → List Char
  | '\r' :: '\n' :: t => '\n' :: replaceCrlf t
  | c :: t => c :: replaceCrlf t
  | [] => []

def normalizeNewlines (l : List Char) : List Char :=
  (replaceCrlf l).map (fun c => if c = '\r' then '\n' else c)

/-! `_sanitize_markdown`: `re.sub(r"^~{3,}\s*$", "***", text, flags=re.MULTILINE)`.
At a line start with at least three tildes, the greedy `\s*` consumes
the longest whitespace run after which `$` holds — to the end of the
string, or up to (but excluding) the last newline inside the run. -/

/-- The suffix of `w` starting at its last `'\n'` (assumes `'\n' ∈ w`). -/
def lastNewlineSuffix (w : List Char) : List Char :=
  '\n' :: (w.reverse.takeWhile (· ≠ '\n')).reverse

/-- Match `~{3,}\s*$` at a line start; returns the suffix after the
match on success. -/
def tryTildeMatch (l : List Char) : Option (List Char) :=
  let tildes := l.takeWhile (· = '~')
  let after := l.dropWhile (· = '~')
  if tildes.length < 3 then none
  else
    let w := after.takeWhile isPyWs
    let rest := after.dropWhile isPyWs
    if rest = [] then some []
    else if '\n' ∈ w then some (lastNewlineSuffix w ++ rest)
    else none

/-- The substitution scan; `fuel` bounds the recursion by the input
length (a successful tilde match consumes at least three characters). -/
def sanitizeGo : Nat → Bool → List Char → List Char
  | 0, _, l => l
  | fuel + 1, atLineStart, l =>
    match l with
    | [] => []
    | c :: t =>
      if atLineStart && c = '~' then
        match tryTildeMatch (c :: t) with
        | some rest => '*' :: '*' :: '*' :: sanitizeGo fuel false rest
        | none => c :: sanitizeGo fuel false t
      else c :: sanitizeGo fuel (c = '\n') t

def sanitize_markdown (l : List Char) : List Char :=
  sanitizeGo l.length true l

/-- The per-literal body of `_extract_page_texts`: unescape (skipping
literals that fail to decode), normalise newlines, strip, sanitise,
and drop empty results. -/
def literotica_process_literal (raw : List Char) : Option (List Char) :=
  match unicodeUnescape raw with
  | none => none
  | some decoded =>
    let decoded := normalizeNewlines decoded
    let decoded := stripChars decoded
    let decoded := sanitize_markdown decoded
    if decoded = [] then none else some decoded

/-- `literotica_transformer.Transformer._extract_page_texts`. -/
def literotica_extract_page_texts (html : String) : List String :=
  ((findPageTexts html.data).filterMap literotica_process_literal).map String.mk

/-- `literotica_transformer.Transformer._extract_heading`: the ld+json
`Article` block's `headline` value (the BeautifulSoup/JSON lookup is
abstracted as the argument), stripped, empty mapped to `none`. -/
def literotica_extract_heading (headline : Option String) : Option String :=
  match headline with
  | none => none
  | some h => if pyStrip h = "" then none else some (pyStrip h)

/-- `literotica_transformer.Transformer._convert_html_to_markdown`;
`none` is the delegation to the generic transformer when no pageText
literal survives. -/
def literotica_convert_html_to_markdown (headline : Option String)
    (html : String) : Option String :=
  match literotica_extract_page_texts html with
  | [] => none
  | segments =>
    let body := String.intercalate "\n\n" segments
    match literotica_extract_heading headline with
    | some heading => some ("# " ++ heading ++ "\n\n" ++ body ++ "\n")
    | none => some body

/-! ## `transformers/deviantart_transformer.py` — metadata sidecar

`_write_metadata` reads every `html/*.html` file currently present,
extracts a payload per file via `_extract_metadata` (a 200-line walk of
the embedded `__INITIAL_STATE__` JSON, abstracted here as the
per-file fields below), keys the payloads by `deviation_id` in a dict,
and writes the serialised dict to `metadata.json` with `write_text`
(whole-file replace).  When no html files are present it returns before
writing, leaving any existing sidecar on disk. -/

/-- One html file as `_write_metadata` sees it: its file name, the
`deviation_id` recovered from its embedded state (`none` when missing,
non-string or empty, the skip condition in the loop), and the rest of
the extracted title/author/tags/stats payload, abstracted. -/
structure DeviantArtHtmlFile where
  name : String
  deviation_id : Option String
  extracted : String
deriving DecidableEq

/-- One entry of the sidecar dict. -/
structure DeviantArtPayload where
  deviation_id : String
  saveto : String
  last_updated : String
  extracted : String
deriving DecidableEq

/-- Python dict assignment `m[k] = v`: overwrite in place, append new
keys (insertion order preserved). -/
def pyDictSet (m : List (String × DeviantArtPayload)) (k : String)
    (v : DeviantArtPayload) : List (String × DeviantArtPayload) :=
  if m.any (fun p => p.1 = k) then
    m.map (fun p => if p.1 = k then (k, v) else p)
  else m ++ [(k, v)]

/-- The dict built by the loop of `_write_metadata` over the current
html files (`now` is `datetime.now(timezone.utc).isoformat(...)`). -/
def deviantart_build_metadata (now : String) (html_files : List DeviantArtHtmlFile) :
    List (String × DeviantArtPayload) :=
  html_files.foldl
    (fun metadata_by_id file =>
      match file.deviation_id with
      | none => metadata_by_id
      | some deviation_id =>
        pyDictSet metadata_by_id deviation_id
          { deviation_id := deviation_id
            saveto := "html/" ++ file.name
            last_updated := now
            extracted := file.extracted })
    []

/-- The `metadata.json` contents after `_write_metadata` runs, as a
function of the sidecar present before the run: the file is rewritten
from the freshly built dict, except that an empty html directory leaves
the previous contents in place. -/
def deviantart_metadata_after_run (prior : List (String × DeviantArtPayload))
    (now : String) (html_files : List DeviantArtHtmlFile) :
    List (String × DeviantArtPayload) :=
  if html_files = [] then prior else deviantart_build_metadata now html_files

/-! ## Document tree model and `transformers/auto.py`

`BeautifulSoup` documents are modelled as a tree of element and text
nodes.  Attribute values are single strings (the sources funnel
multi-valued attributes through `_stringify_itemtype`, which joins them
with spaces; the joined form is what the model stores). -/

inductive Node where
  | text : String → Node
  | elem : String → List (String × String) → List Node → Node

mutual

/-- All strict descendants of a node, in document (pre-)order
(`find_all` traversal order). -/
def Node.descendants : Node → List Node
  | .text _ => []
  | .elem _ _ children => Node.descendantsList children

def Node.descendantsList : List Node → List Node
  | [] => []
  | c :: cs => c :: Node.descendants c ++ Node.descendantsList cs

end

mutual

/-- The text-node strings inside a node's subtree, in document order
(the strings `get_text` joins). -/
def Node.texts : Node → List String
  | .text s => [s]
  | .elem _ _ children => Node.textsList children

def Node.textsList : List Node → List String
  | [] => []
  | c :: cs => Node.texts c ++ Node.textsList cs

end

def Node.tagName : Node → String
  | .text _ => ""
  | .elem tag _ _ => tag

def Node.isElem : Node → Bool
  | .text _ => false
  | .elem _ _ _ => true

/-- `element.get(attr)`: the first binding of the attribute. -/
def Node.attr (n : Node) (key : String) : Option String :=
  match n with
  | .text _ => none
  | .elem _ attrs _ =>
    (attrs.find? (fun p => p.1 = key)).map (fun p => p.2)

/-- `get_text(separator=" ", strip=True)`: join the stripped, nonempty
text strings of the subtree with single spaces. -/
def Node.visibleText (n : Node) : String :=
  String.intercalate " " ((n.texts.map pyStrip).filter (fun s => s ≠ ""))

/-- `Transformer._visible_text_length`. -/
def visible_text_length (n : Node) : Nat := n.visibleText.length

/-- `find_all(name)` over a document: the descendant elements with the
given tag, in document order. -/
def findAllTag (tag : String) (doc : Node) : List Node :=
  doc.descendants.filter (fun n => n.tagName = tag)

/-- `find(name)`: the first such element. -/
def findFirstTag (tag : String) (doc : Node) : Option Node :=
  (findAllTag tag doc).head?

/-- `Transformer._pick_largest_text`: the first element of strictly
greatest nonzero visible text length, if any. -/
def pick_largest_step (best : Option (Node × Nat)) (element : Node) :
    Option (Node × Nat) :=
  let length := visible_text_length element
  match best with
  | none => if length > 0 then some (element, length) else none
  | some (b, bestLength) =>
    if length > bestLength then some (element, length) else some (b, bestLength)

def pick_largest_text (elements : List Node) : Option Node :=
  (elements.foldl pick_largest_step none).map (fun p => p.1)

/-- `_stringify_itemtype(...).lower() == "main"` on a `role` value. -/
def roleIsMain (n : Node) : Bool :=
  match n.attr "role" with
  | none => false
  | some v => pyLower v = "main"

/-- `_ARTICLE_KEYWORDS`. -/
def articleKeywords : List String :=
  ["article", "blogposting", "newsarticle", "creativework"]

/-- `Transformer._is_article_like` applied to an element's `itemtype`. -/
def isArticleLike (n : Node) : Bool :=
  match n.attr "itemtype" with
  | none => false
  | some v =>
    if v = "" then false
    else articleKeywords.any (fun kw => containsSub (pyLower v).data kw.data)

/-- An element removed by the `_CHROME_SELECTORS` pass: `nav`, `header`,
`footer`, or `role` equal to `navigation`/`banner`/`contentinfo`. -/
def isChrome (n : Node) : Bool :=
  n.isElem &&
    (n.tagName = "nav" || n.tagName = "header" || n.tagName = "footer"
      || n.attr "role" = some "navigation" || n.attr "role" = some "banner"
      || n.attr "role" = some "contentinfo")

mutual

/-- Remove every chrome element (and its subtree) from a node's
children, recursively (`decompose` on each selector match of the
cloned body). -/
def Node.stripChrome : Node → Node
  | .text s => .text s
  | .elem tag attrs children => .elem tag attrs (Node.stripChromeList children)

def Node.stripChromeList : List Node → List Node
  | [] => []
  | c :: cs =>
    if isChrome c then Node.stripChromeList cs
    else Node.stripChrome c :: Node.stripChromeList cs

end

/-- `element.find(["h1", "h2"]) is not None`: a strict descendant is an
`h1` or `h2`. -/
def hasHeadingDescendant (n : Node) : Bool :=
  n.descendants.any (fun d => d.tagName = "h1" || d.tagName = "h2")

mutual

/-- The element nodes of a subtree paired with their depth (`_node_depth`
counts parents up to the clone's document root; the body passed in sits
at depth 1), in document order, self included. -/
def Node.elemsWithDepth : Node → Nat → List (Node × Nat)
  | .text _, _ => []
  | .elem tag attrs children, depth =>
    (Node.elem tag attrs children, depth) :: Node.elemsWithDepthList children (depth + 1)

def Node.elemsWithDepthList : List Node → Nat → List (Node × Nat)
  | [], _ => []
  | c :: cs, depth => Node.elemsWithDepth c depth ++ Node.elemsWithDepthList cs depth

end

/-- The selection loop of `_structured_layout_candidate`: keep the
candidate with headings and nonzero text that is deepest, ties broken
by greater text length, first winner kept. -/
def structuredPick (candidates : List (Node × Nat)) : Option Node :=
  (candidates.foldl
    (fun best (p : Node × Nat) =>
      let (element, depth) := p
      if ¬ hasHeadingDescendant element then best
      else
        let length := visible_text_length element
        if length = 0 then best
        else
          match best with
          | none => some (element, depth, length)
          | some (b, bestDepth, bestLength) =>
            if depth > bestDepth ∨ (depth = bestDepth ∧ length > bestLength) then
              some (element, depth, length)
            else some (b, bestDepth, bestLength))
    none).map (fun p => p.1)

/-- `Transformer._structured_layout_candidate`.  `select` and
`find_all` on the cloned body only search its descendants, so the body
itself is neither decomposed nor a candidate; `_node_depth` of a body
child inside the clone is 2 (body, then the clone's document root). -/
def structured_layout_candidate (doc : Node) : Option Node :=
  match findFirstTag "body" doc with
  | none => none
  | some body =>
    let bodyClone := body.stripChrome
    structuredPick ((bodyClone.elemsWithDepth 1).drop 1)

/-- `Transformer.extract_content_root`. -/
def extract_content_root (doc : Node) : Node :=
  match pick_largest_text (findAllTag "main" doc) with
  | some candidate => candidate
  | none =>
    match pick_largest_text ((doc.descendants.filter (fun n => (n.attr "role").isSome)).filter roleIsMain) with
    | some candidate => candidate
    | none =>
      match pick_largest_text (findAllTag "article" doc) with
      | some candidate => candidate
      | none =>
        match pick_largest_text ((doc.descendants.filter (fun n => (n.attr "itemtype").isSome)).filter isArticleLike) with
        | some candidate => candidate
        | none =>
          match structured_layout_candidate doc with
          | some candidate => candidate
          | none =>
            match findFirstTag "body" doc with
            | some body => body
            | none => doc

/-! ## Theorems -/

lemma find?_of_first {α : Type} (p : α → Bool) :
    ∀ (l : List α) (i : Fin l.length), p (l.get i) = true →
      (∀ j : Fin l.length, (j : ℕ) < (i : ℕ) → p (l.get j) = false) →
      l.find? p = some (l.get i) := by
  intro l
  induction l with
  | nil => exact fun i => absurd i.isLt (by simp)
  | cons a t ih =>
    intro i hp hprev
    match i with
    | ⟨0, _⟩ => simp_all [List.find?]
    | ⟨k + 1, hk⟩ =>
      have ha : p a = false := hprev ⟨0, by simp⟩ (Nat.succ_pos k)
      have : (a :: t).find? p = t.find? p := by simp [List.find?, ha]
      rw [this]
      exact ih ⟨k, Nat.lt_of_succ_lt_succ hk⟩ hp
        (fun j hj => hprev ⟨j.val + 1, Nat.succ_lt_succ j.isLt⟩ (Nat.succ_lt_succ hj))

/-- C1: `classify_url` is a deterministic ordered first-match scan over
`_iter_rules`: a URL matched by no rule classifies to `none`, and a URL
whose earliest matching rule is the `i`-th classifies to exactly that
rule's `SiteMatch` — so of two matching rules the earlier one wins. -/
theorem classify_url_ordered_first_match (url : String) :
    ((∀ rule ∈ iter_rules, rule.pattern url = false) → classify_url url = none) ∧
    (∀ i : Fin iter_rules.length, (iter_rules.get i).pattern url = true →
      (∀ j : Fin iter_rules.length, (j : ℕ) < (i : ℕ) →
        (iter_rules.get j).pattern url = false) →
      classify_url url = some (rule_to_match (iter_rules.get i))) := by
  constructor
  · intro h
    have : iter_rules.find? (fun rule => rule.pattern url) = none := by
      rw [List.find?_eq_none]
      intro rule hr
      simp [h rule hr]
    simp [classify_url, this]
  · intro i hp hprev
    have := find?_of_first (fun rule => rule.pattern url) iter_rules i hp hprev
    simp [classify_url, this]

/-- C1 witness: `https://www.wattpad.com/12345-example` matches only the
sixth rule, and classifies to the Wattpad profile. -/
theorem classify_url_ordered_first_match_witness :
    classify_url "https://www.wattpad.com/12345-example" =
      some { name := "wattpad", full_name := "Wattpad"
             fetch_agent := some "wattpad_fetcher"
             transform_agent := some "wattpad_transformer"
             packaging_agent := none
             documentation := some "Stories hosted on wattpad.com." } :=
  (classify_url_ordered_first_match "https://www.wattpad.com/12345-example").2
    ⟨5, by decide⟩ (by decide) (by decide)

lemma pick_step_none_eq (a : Node) :
    pick_largest_step none a =
      if 0 < visible_text_length a then some (a, visible_text_length a) else none := rfl

lemma pick_step_some_eq (b : Node) (bl : Nat) (a : Node) :
    pick_largest_step (some (b, bl)) a =
      if bl < visible_text_length a then some (a, visible_text_length a)
      else some (b, bl) := rfl

lemma pick_fold_spec (l : List Node) :
    ∀ (acc : Option (Node × Nat)),
      (∀ b bl, acc = some (b, bl) → bl = visible_text_length b ∧ 0 < bl) →
      (l.foldl pick_largest_step acc = none →
        acc = none ∧ ∀ x ∈ l, visible_text_length x = 0) ∧
      (∀ y yl, l.foldl pick_largest_step acc = some (y, yl) →
        yl = visible_text_length y ∧ 0 < yl ∧ (acc = some (y, yl) ∨ y ∈ l) ∧
        (∀ x ∈ l, visible_text_length x ≤ yl) ∧
        (∀ b bl, acc = some (b, bl) → bl ≤ yl)) := by
  induction l with
  | nil =>
    intro acc hinv
    refine ⟨fun h => ⟨h, by simp⟩, fun y yl h => ?_⟩
    simp only [List.foldl_nil] at h
    obtain ⟨h1, h2⟩ := hinv y yl h
    refine ⟨h1, h2, Or.inl h, by simp, fun b bl hb => ?_⟩
    rw [hb] at h
    simp only [Option.some.injEq, Prod.mk.injEq] at h
    omega
  | cons a t ih =>
    intro acc hinv
    -- behaviour of one step
    have hstep : ∀ b bl, pick_largest_step acc a = some (b, bl) →
        bl = visible_text_length b ∧ 0 < bl := by
      intro b bl h
      cases acc with
      | none =>
        rw [pick_step_none_eq] at h
        split_ifs at h with hl
        simp only [Option.some.injEq, Prod.mk.injEq] at h
        obtain ⟨rfl, rfl⟩ := h
        exact ⟨rfl, hl⟩
      | some p =>
        obtain ⟨b0, bl0⟩ := p
        obtain ⟨hb0, hbl0⟩ := hinv b0 bl0 rfl
        rw [pick_step_some_eq] at h
        split_ifs at h with hl <;>
          (simp only [Option.some.injEq, Prod.mk.injEq] at h
           obtain ⟨rfl, rfl⟩ := h)
        · exact ⟨rfl, by omega⟩
        · exact ⟨hb0, hbl0⟩
    have hmono : ∀ b bl, acc = some (b, bl) →
        ∃ c cl, pick_largest_step acc a = some (c, cl) ∧ bl ≤ cl := by
      intro b bl hacc
      subst hacc
      rw [pick_step_some_eq]
      split_ifs with hl
      · exact ⟨a, visible_text_length a, rfl, by omega⟩
      · exact ⟨b, bl, rfl, le_refl _⟩
    have hsrc : ∀ b bl, pick_largest_step acc a = some (b, bl) →
        acc = some (b, bl) ∨ b = a := by
      intro b bl h
      cases acc with
      | none =>
        rw [pick_step_none_eq] at h
        split_ifs at h with hl
        simp only [Option.some.injEq, Prod.mk.injEq] at h
        exact Or.inr h.1.symm
      | some p =>
        obtain ⟨b0, bl0⟩ := p
        rw [pick_step_some_eq] at h
        split_ifs at h with hl <;>
          simp only [Option.some.injEq, Prod.mk.injEq] at h
        · exact Or.inr h.1.symm
        · exact Or.inl (by rw [h.1, h.2])
    have hbig : ∀ b bl, pick_largest_step acc a = some (b, bl) →
        visible_text_length a ≤ bl := by
      intro b bl h
      cases acc with
      | none =>
        rw [pick_step_none_eq] at h
        split_ifs at h with hl
        simp only [Option.some.injEq, Prod.mk.injEq] at h
        omega
      | some p =>
        obtain ⟨b0, bl0⟩ := p
        rw [pick_step_some_eq] at h
        split_ifs at h with hl <;>
          simp only [Option.some.injEq, Prod.mk.injEq] at h <;> omega
    have hnotdrop : pick_largest_step acc a = none →
        visible_text_length a = 0 ∧ acc = none := by
      intro h
      cases acc with
      | none =>
        rw [pick_step_none_eq] at h
        split_ifs at h with hl
        exact ⟨by omega, rfl⟩
      | some p =>
        obtain ⟨b0, bl0⟩ := p
        rw [pick_step_some_eq] at h
        split_ifs at h
    have foldstep : (a :: t).foldl pick_largest_step acc
        = t.foldl pick_largest_step (pick_largest_step acc a) := by
      simp [List.foldl_cons]
    obtain ⟨ihnone, ihsome⟩ := ih (pick_largest_step acc a) hstep
    constructor
    · intro h
      rw [foldstep] at h
      obtain ⟨hacc', hall⟩ := ihnone h
      obtain ⟨ha0, haccnone⟩ := hnotdrop hacc'
      refine ⟨haccnone, fun x hx => ?_⟩
      rcases List.mem_cons.mp hx with hx | hx
      · subst hx; exact ha0
      · exact hall x hx
    · intro y yl h
      rw [foldstep] at h
      obtain ⟨h1, h2, h3, h4, h5⟩ := ihsome y yl h
      refine ⟨h1, h2, ?_, ?_, ?_⟩
      · rcases h3 with h3 | h3
        · rcases hsrc y yl h3 with h' | h'
          · exact Or.inl h'
          · exact Or.inr (by simp [h'])
        · exact Or.inr (List.mem_cons_of_mem a h3)
      · intro x hx
        rcases List.mem_cons.mp hx with hx | hx
        · subst hx
          rcases hstepval : pick_largest_step acc x with _ | ⟨c, cl⟩
          · have := (hnotdrop hstepval).1
            omega
          · have := hbig c cl hstepval
            have := h5 c cl hstepval
            omega
        · exact h4 x hx
      · intro b bl hacc
        obtain ⟨c, cl, hc, hle⟩ := hmono b bl hacc
        have := h5 c cl hc
        omega

lemma pick_largest_text_spec (l : List Node) :
    (pick_largest_text l = none → ∀ x ∈ l, visible_text_length x = 0) ∧
    (∀ y, pick_largest_text l = some y →
      y ∈ l ∧ 0 < visible_text_length y ∧
      ∀ x ∈ l, visible_text_length x ≤ visible_text_length y) := by
  obtain ⟨hnone, hsome⟩ := pick_fold_spec l none (by simp)
  constructor
  · intro h x hx
    simp only [pick_largest_text, Option.map_eq_none'] at h
    exact (hnone h).2 x hx
  · intro y h
    simp only [pick_largest_text, Option.map_eq_some'] at h
    obtain ⟨⟨y', yl⟩, hfold, hy⟩ := h
    simp only at hy
    subst hy
    obtain ⟨h1, h2, h3, h4, _⟩ := hsome y' yl hfold
    refine ⟨?_, by omega, fun x hx => by have := h4 x hx; omega⟩
    rcases h3 with h3 | h3
    · exact absurd h3 (by simp)
    · exact h3

/-- C2 (amended): the generic extractor's cascade prefers the semantic
`main` stage whenever it is non-empty: on every page containing a
`main` element with nonzero visible text, `extract_content_root`
returns a `main` element of maximal visible text length (regardless of
any `article` elements; a `main` with empty visible text does not win
the stage — see the counterexample). -/
theorem extract_content_root_main_preferred (doc : Node)
    (h : ∃ m ∈ findAllTag "main" doc, 0 < visible_text_length m) :
    extract_content_root doc ∈ findAllTag "main" doc ∧
    ∀ m ∈ findAllTag "main" doc,
      visible_text_length m ≤ visible_text_length (extract_content_root doc) := by
  obtain ⟨m, hm, hlen⟩ := h
  have spec := pick_largest_text_spec (findAllTag "main" doc)
  rcases hpick : pick_largest_text (findAllTag "main" doc) with _ | y
  · exact absurd (spec.1 hpick m hm) (by omega)
  · have hy := spec.2 y hpick
    have hroot : extract_content_root doc = y := by
      simp [extract_content_root, hpick]
    rw [hroot]
    exact ⟨hy.1, hy.2.2⟩

def mainWitnessNode : Node := .elem "main" [] [.elem "p" [] [.text "Main content"]]

def mainWitnessDoc : Node :=
  .elem "[document]" [] [.elem "html" [] [.elem "body" []
    [mainWitnessNode, .elem "article" [] [.elem "p" [] [.text "Article content"]]]]]

/-- C2 witness: on the spec's example page (`main` with text next to an
`article`), the `main` subtree is selected. -/
theorem extract_content_root_main_preferred_witness :
    extract_content_root mainWitnessDoc ∈ findAllTag "main" mainWitnessDoc ∧
    ∀ m ∈ findAllTag "main" mainWitnessDoc,
      visible_text_length m ≤ visible_text_length (extract_content_root mainWitnessDoc) :=
  extract_content_root_main_preferred mainWitnessDoc
    ⟨mainWitnessNode, List.mem_singleton_self _, by decide⟩

def emptyMainDoc : Node :=
  .elem "[document]" [] [.elem "html" [] [.elem "body" []
    [.elem "main" [] [],
     .elem "article" [] [.elem "p" [] [.text "Article content"]]]]]

/-- C2 counterexample: a page containing both a `main` element and an
`article` element where the `article`, not the `main`, is selected —
the `main` here has no visible text, so the first cascade stage is
empty and the claim's "for every page containing both a main element
and an article element, the main subtree is selected" fails. -/
theorem extract_content_root_empty_main_counterexample :
    (findAllTag "main" emptyMainDoc).length = 1 ∧
    (findAllTag "article" emptyMainDoc).length = 1 ∧
    (extract_content_root emptyMainDoc).tagName = "article" := by decide

/-- C10: Wattpad URL selection falls back to the generic discoverer's
link scraping both when the table-of-contents element is absent and
when it is present but the filtered URL list comes out empty (for
example when every entry is locked). -/
theorem wattpad_select_urls_generic_fallback (base_url : String) (page : WattpadPage) :
    (page.toc = none →
      wattpad_select_urls base_url page = (auto_select_urls base_url page.hrefs, 0)) ∧
    (∀ anchors, page.toc = some anchors →
      (wattpad_toc_scan base_url anchors).1 = [] →
      (wattpad_select_urls base_url page).1 = auto_select_urls base_url page.hrefs) := by
  constructor
  · intro h
    simp [wattpad_select_urls, h]
  · intro anchors h hempty
    rcases hscan : wattpad_toc_scan base_url anchors with ⟨ordered, locked⟩
    rw [hscan] at hempty
    simp only at hempty
    subst hempty
    simp [wattpad_select_urls, h, hscan]

/-- C10 witness: a table of contents whose only anchor is locked filters
to the empty list, and selection returns the generic scrape of the page
hrefs instead of the empty list. -/
theorem wattpad_select_urls_generic_fallback_witness :
    (wattpad_select_urls "https://www.wattpad.com/12345"
        ⟨some [⟨"100-ch1", true⟩], ["100-ch1"]⟩).1 =
      auto_select_urls "https://www.wattpad.com/12345" ["100-ch1"] :=
  (wattpad_select_urls_generic_fallback "https://www.wattpad.com/12345"
      ⟨some [⟨"100-ch1", true⟩], ["100-ch1"]⟩).2
    [⟨"100-ch1", true⟩] rfl (by decide)

lemma length_filter_split {α : Type} (p : α → Bool) (l : List α) :
    (l.filter p).length + (l.filter (fun x => !p x)).length = l.length := by
  induction l with
  | nil => simp
  | cons a t ih => by_cases h : p a <;> simp [h] <;> omega

lemma wattpad_scan_fold (base_url : String) :
    ∀ (anchors : List WattpadAnchor) (ordered : List String) (locked : Nat),
      (∀ a ∈ anchors, a.locked = false → pyStrip a.href ≠ "") →
      ((anchors.filter (fun a => !a.locked)).map (fun a => urljoin base_url a.href)).Nodup →
      (∀ u ∈ (anchors.filter (fun a => !a.locked)).map (fun a => urljoin base_url a.href),
        u ∉ ordered) →
      anchors.foldl (wattpad_toc_step base_url) (ordered, locked) =
        (ordered ++ (anchors.filter (fun a => !a.locked)).map (fun a => urljoin base_url a.href),
         locked + (anchors.filter (fun a => a.locked)).length) := by
  intro anchors
  induction anchors with
  | nil => intro ordered locked _ _ _; simp
  | cons a t ih =>
    intro ordered locked hvalid hnodup hfresh
    by_cases hl : a.locked
    · have hstep : wattpad_toc_step base_url (ordered, locked) a = (ordered, locked + 1) := by
        simp [wattpad_toc_step, hl]
      have hfilter1 : (a :: t).filter (fun x => !x.locked) = t.filter (fun x => !x.locked) := by
        simp [List.filter, hl]
      have hfilter2 : (a :: t).filter (fun x => x.locked) = a :: t.filter (fun x => x.locked) := by
        simp [List.filter, hl]
      rw [List.foldl_cons, hstep, hfilter1, hfilter2]
      rw [ih (ordered) (locked + 1)
        (fun x hx hxl => hvalid x (List.mem_cons_of_mem a hx) hxl)
        (by rw [← hfilter1]; exact hnodup)
        (by rw [← hfilter1]; exact hfresh)]
      simp
      omega
    · have hl' : a.locked = false := by simpa using hl
      have hhref : pyStrip a.href ≠ "" := hvalid a (List.mem_cons_self a t) hl'
      have hfilter1 : (a :: t).filter (fun x => !x.locked) = a :: t.filter (fun x => !x.locked) := by
        simp [List.filter, hl']
      have hfilter2 : (a :: t).filter (fun x => x.locked) = t.filter (fun x => x.locked) := by
        simp [List.filter, hl']
      set absolute := urljoin base_url a.href with habs
      have hmap : ((a :: t).filter (fun x => !x.locked)).map (fun x => urljoin base_url x.href)
          = absolute :: (t.filter (fun x => !x.locked)).map (fun x => urljoin base_url x.href) := by
        rw [hfilter1]; simp [habs]
      rw [hmap] at hnodup hfresh
      have hnotmem : absolute ∉ ordered := hfresh absolute (List.mem_cons_self _ _)
      have hstep : wattpad_toc_step base_url (ordered, locked) a
          = (ordered ++ [absolute], locked) := by
        simp [wattpad_toc_step, hl', hhref, hnotmem, habs]
      rw [List.foldl_cons, hstep, hfilter2, hmap]
      rw [ih (ordered ++ [absolute]) locked
        (fun x hx hxl => hvalid x (List.mem_cons_of_mem a hx) hxl)
        (List.Nodup.of_cons hnodup)
        ?_]
      · simp
      · intro u hu
        simp only [List.mem_append, List.mem_singleton]
        push_neg
        refine ⟨hfresh u (List.mem_cons_of_mem _ hu), ?_⟩
        intro hcontr
        subst hcontr
        exact (List.nodup_cons.mp hnodup).1 hu

lemma inkitt_scan_fold (base_url : String) :
    ∀ (items : List InkittChapterItem) (ordered : List String) (locked : Nat),
      (∀ li ∈ items, ∃ h, li.anchor_href = some h ∧ pyStrip h ≠ "") →
      ((items.filter (fun li => !li.patron_icon)).map
        (fun li => urljoin base_url (li.anchor_href.getD ""))).Nodup →
      (∀ u ∈ (items.filter (fun li => !li.patron_icon)).map
        (fun li => urljoin base_url (li.anchor_href.getD "")), u ∉ ordered) →
      items.foldl (inkitt_item_step base_url) (ordered, locked) =
        (ordered ++ (items.filter (fun li => !li.patron_icon)).map
          (fun li => urljoin base_url (li.anchor_href.getD "")),
         locked + (items.filter (fun li => li.patron_icon)).length) := by
  intro items
  induction items with
  | nil => intro ordered locked _ _ _; simp
  | cons a t ih =>
    intro ordered locked hvalid hnodup hfresh
    obtain ⟨href, hhref, hstripped⟩ := hvalid a (List.mem_cons_self a t)
    by_cases hp : a.patron_icon
    · have hstep : inkitt_item_step base_url (ordered, locked) a = (ordered, locked + 1) := by
        simp [inkitt_item_step, hhref, hstripped, hp]
      have hfilter1 : (a :: t).filter (fun x => !x.patron_icon)
          = t.filter (fun x => !x.patron_icon) := by simp [List.filter, hp]
      have hfilter2 : (a :: t).filter (fun x => x.patron_icon)
          = a :: t.filter (fun x => x.patron_icon) := by simp [List.filter, hp]
      rw [List.foldl_cons, hstep, hfilter1, hfilter2]
      rw [ih (ordered) (locked + 1)
        (fun x hx => hvalid x (List.mem_cons_of_mem a hx))
        (by rw [← hfilter1]; exact hnodup)
        (by rw [← hfilter1]; exact hfresh)]
      simp
      omega
    · have hp' : a.patron_icon = false := by simpa using hp
      have hfilter1 : (a :: t).filter (fun x => !x.patron_icon)
          = a :: t.filter (fun x => !x.patron_icon) := by simp [List.filter, hp']
      have hfilter2 : (a :: t).filter (fun x => x.patron_icon)
          = t.filter (fun x => x.patron_icon) := by simp [List.filter, hp']
      set absolute := urljoin base_url (a.anchor_href.getD "") with habs
      have hmap : ((a :: t).filter (fun x => !x.patron_icon)).map
            (fun x => urljoin base_url (x.anchor_href.getD ""))
          = absolute :: (t.filter (fun x => !x.patron_icon)).map
              (fun x => urljoin base_url (x.anchor_href.getD "")) := by
        rw [hfilter1]; simp [habs]
      rw [hmap] at hnodup hfresh
      have hnotmem : absolute ∉ ordered := hfresh absolute (List.mem_cons_self _ _)
      have habs2 : urljoin base_url href = absolute := by
        rw [habs, hhref]
        rfl
      have hstep : inkitt_item_step base_url (ordered, locked) a
          = (ordered ++ [absolute], locked) := by
        simp only [inkitt_item_step, hhref]
        simp [hstripped, hp', habs2, hnotmem]
      rw [List.foldl_cons, hstep, hfilter2, hmap]
      rw [ih (ordered ++ [absolute]) locked
        (fun x hx => hvalid x (List.mem_cons_of_mem a hx))
        (List.Nodup.of_cons hnodup)
        ?_]
      · simp
      · intro u hu
        simp only [List.mem_append, List.mem_singleton]
        push_neg
        refine ⟨hfresh u (List.mem_cons_of_mem _ hu), ?_⟩
        intro hcontr
        subst hcontr
        exact (List.nodup_cons.mp hnodup).1 hu

/-- C5 (amended): on the subscription-gated sites, a table of contents
of N entries with K locked yields N−K discovered URLs, the locked count
driving the warning is exactly K, and a warning is emitted iff K > 0 —
provided every unlocked entry carries a valid (nonempty after
stripping) href, the resolved URLs of the unlocked entries are pairwise
distinct (the scan deduplicates repeats), and, for Wattpad, at least
one entry is unlocked (an all-locked or otherwise empty filter result
falls back to generic link scraping instead, see the fallback theorem). -/
theorem site_locked_filtering (base_url : String) :
    (∀ (anchors : List WattpadAnchor) (hrefs : List String),
      (∀ a ∈ anchors, a.locked = false → pyStrip a.href ≠ "") →
      ((anchors.filter (fun a => !a.locked)).map (fun a => urljoin base_url a.href)).Nodup →
      (∃ a ∈ anchors, a.locked = false) →
      (wattpad_select_urls base_url ⟨some anchors, hrefs⟩).1.length
          = anchors.length - (anchors.filter (fun a => a.locked)).length ∧
      (wattpad_select_urls base_url ⟨some anchors, hrefs⟩).2
          = (anchors.filter (fun a => a.locked)).length ∧
      (wattpad_warnings (wattpad_select_urls base_url ⟨some anchors, hrefs⟩).2 = []
        ↔ (anchors.filter (fun a => a.locked)).length = 0)) ∧
    (∀ (items : List InkittChapterItem) (hrefs : List String),
      (∀ li ∈ items, ∃ h, li.anchor_href = some h ∧ pyStrip h ≠ "") →
      ((items.filter (fun li => !li.patron_icon)).map
        (fun li => urljoin base_url (li.anchor_href.getD ""))).Nodup →
      (inkitt_extract_chapters base_url ⟨some items, hrefs⟩).1.length
          = items.length - (items.filter (fun li => li.patron_icon)).length ∧
      (inkitt_extract_chapters base_url ⟨some items, hrefs⟩).2
          = (items.filter (fun li => li.patron_icon)).length ∧
      (inkitt_warnings (inkitt_extract_chapters base_url ⟨some items, hrefs⟩).2 = []
        ↔ (items.filter (fun li => li.patron_icon)).length = 0)) := by
  constructor
  · intro anchors hrefs hvalid hnodup hsome
    have hscan := wattpad_scan_fold base_url anchors [] 0 hvalid hnodup (by simp)
    have hcount := length_filter_split (fun a => a.locked) anchors
    obtain ⟨w, hw, hwl⟩ := hsome
    have hwmem : w ∈ anchors.filter (fun a => !a.locked) := by
      rw [List.mem_filter]
      exact ⟨hw, by simp [hwl]⟩
    have hmapne : (anchors.filter (fun a => !a.locked)).map
        (fun a => urljoin base_url a.href) ≠ [] := by
      simp only [ne_eq, List.map_eq_nil_iff]
      intro hcontr
      rw [hcontr] at hwmem
      exact absurd hwmem (List.not_mem_nil w)
    have hsel : wattpad_select_urls base_url ⟨some anchors, hrefs⟩
        = ((anchors.filter (fun a => !a.locked)).map (fun a => urljoin base_url a.href),
           (anchors.filter (fun a => a.locked)).length) := by
      simp only [wattpad_select_urls, wattpad_toc_scan]
      rw [hscan]
      simp [hmapne]
    rw [hsel]
    refine ⟨?_, rfl, ?_⟩
    · simp only [List.length_map]
      omega
    · simp [wattpad_warnings]
  · intro items hrefs hvalid hnodup
    have hscan := inkitt_scan_fold base_url items [] 0 hvalid hnodup (by simp)
    have hcount := length_filter_split (fun li => li.patron_icon) items
    have hsel : inkitt_extract_chapters base_url ⟨some items, hrefs⟩
        = ((items.filter (fun li => !li.patron_icon)).map
             (fun li => urljoin base_url (li.anchor_href.getD "")),
           (items.filter (fun li => li.patron_icon)).length) := by
      simp only [inkitt_extract_chapters]
      rw [hscan]
      simp
    rw [hsel]
    refine ⟨?_, rfl, ?_⟩
    · simp only [List.length_map]
      omega
    · simp [inkitt_warnings]

/-- C5 witness: a Wattpad table of contents with two unlocked and one
locked anchor yields two URLs, locked count 1, warning emitted; an
Inkitt dropdown with one valid unlocked item and one patron-locked item
yields one URL, locked count 1, warning emitted. -/
theorem site_locked_filtering_witness :
    ((wattpad_select_urls "https://www.wattpad.com/12345"
        ⟨some [⟨"100-a", false⟩, ⟨"200-b", true⟩, ⟨"300-c", false⟩], []⟩).1.length = 2 ∧
      (wattpad_select_urls "https://www.wattpad.com/12345"
        ⟨some [⟨"100-a", false⟩, ⟨"200-b", true⟩, ⟨"300-c", false⟩], []⟩).2 = 1 ∧
      (wattpad_warnings (wattpad_select_urls "https://www.wattpad.com/12345"
        ⟨some [⟨"100-a", false⟩, ⟨"200-b", true⟩, ⟨"300-c", false⟩], []⟩).2 = [] ↔ (1 : Nat) = 0)) ∧
    ((inkitt_extract_chapters "https://www.inkitt.com/stories/99"
        ⟨some [⟨some "/stories/99/chapters/1", false⟩, ⟨some "/stories/99/chapters/2", true⟩], []⟩).1.length = 1 ∧
      (inkitt_extract_chapters "https://www.inkitt.com/stories/99"
        ⟨some [⟨some "/stories/99/chapters/1", false⟩, ⟨some "/stories/99/chapters/2", true⟩], []⟩).2 = 1 ∧
      (inkitt_warnings (inkitt_extract_chapters "https://www.inkitt.com/stories/99"
        ⟨some [⟨some "/stories/99/chapters/1", false⟩, ⟨some "/stories/99/chapters/2", true⟩], []⟩).2 = [] ↔ (1 : Nat) = 0)) := by
  have hw := (site_locked_filtering "https://www.wattpad.com/12345").1
    [⟨"100-a", false⟩, ⟨"200-b", true⟩, ⟨"300-c", false⟩] []
    (by decide) (by decide) ⟨⟨"100-a", false⟩, by decide, rfl⟩
  have hi := (site_locked_filtering "https://www.inkitt.com/stories/99").2
    [⟨some "/stories/99/chapters/1", false⟩, ⟨some "/stories/99/chapters/2", true⟩] []
    (by decide) (by decide)
  exact ⟨hw, hi⟩

/-- C5 counterexample: a table of contents with two unlocked anchors
that carry the same href (N = 2, K = 0) yields one URL, not N − K = 2:
the scan deduplicates resolved URLs, so "exactly N−K entries" fails as
stated. -/
theorem site_locked_filtering_counterexample :
    (wattpad_select_urls "https://www.wattpad.com/12345"
        ⟨some [⟨"100-a", false⟩, ⟨"100-a", false⟩], []⟩).1.length = 1 ∧
    ([(⟨"100-a", false⟩ : WattpadAnchor), ⟨"100-a", false⟩].length
      - ([(⟨"100-a", false⟩ : WattpadAnchor), ⟨"100-a", false⟩].filter
          (fun a => a.locked)).length) = 2 := by decide

lemma pyOr_of_truthy {a b : Option String} (h : pyTruthy a = true) : pyOr a b = a := by
  simp [pyOr, h]

lemma pyOr_of_falsy {a b : Option String} (h : pyTruthy a = false) : pyOr a b = b := by
  simp [pyOr, h]

lemma effective_name_of_user {o : StoryScraperOptions} {s : String}
    (h : o.name = some s) (hs : s ≠ "") : o.effective_name = s := by
  have h1 : pyOr (some s) o.chosen_name = some s := by simp [pyOr, pyTruthy, hs]
  have h2 : pyOr (some s) (some "Story") = some s := by simp [pyOr, pyTruthy, hs]
  simp [StoryScraperOptions.effective_name, pyOrD, h, h1, h2]

/-- C4: the effective accessors resolve user value → inferred value →
fixed default (`"Story"`/`"story"`/`"Unknown"`), and whenever the user
supplied a (nonempty) explicit name, none of the modelled site
metadata-enrichment steps (Wattpad `postprocess_listing`, Inkitt and
Patreon `_update_options_from_metadata`, AO3 `postprocess_listing`)
changes `effective_name()` — every step writes
`name := options.name or inferred`, so a truthy user name survives. -/
theorem effective_name_user_precedence (o : StoryScraperOptions) :
    ((∀ s, o.name = some s → s ≠ "" → o.effective_name = s) ∧
     (pyTruthy o.name = false → ∀ s, o.chosen_name = some s → s ≠ "" →
       o.effective_name = s) ∧
     (pyTruthy o.name = false → pyTruthy o.chosen_name = false →
       o.effective_name = "Story") ∧
     (pyTruthy o.slug = false → pyTruthy o.chosen_slug = false →
       o.effective_slug = "story") ∧
     (pyTruthy o.author = false → pyTruthy o.chosen_author = false →
       o.effective_author = "Unknown")) ∧
    (∀ s, o.name = some s → s ≠ "" →
      (∀ info, (wattpad_postprocess_listing o info).effective_name = s) ∧
      (∀ m, (inkitt_update_options_from_metadata o m).effective_name = s) ∧
      (∀ m, (patreon_update_options_from_metadata o m).effective_name = s) ∧
      (∀ t a, (ao3_postprocess_listing o t a).effective_name = s)) := by
  constructor
  · refine ⟨fun s h hs => effective_name_of_user h hs, ?_, ?_, ?_, ?_⟩
    · intro hf s h hs
      have h1 : pyOr o.name o.chosen_name = o.chosen_name := pyOr_of_falsy hf
      have h2 : pyOr (some s) (some "Story") = some s := by simp [pyOr, pyTruthy, hs]
      rw [h] at h1
      simp [StoryScraperOptions.effective_name, pyOrD, h, h1, h2]
    · intro hf hc
      have h1 : pyOr o.name o.chosen_name = o.chosen_name := pyOr_of_falsy hf
      have h2 : pyOr o.chosen_name (some "Story") = some "Story" := pyOr_of_falsy hc
      simp [StoryScraperOptions.effective_name, pyOrD, h1, h2]
    · intro hf hc
      have h1 : pyOr o.slug o.chosen_slug = o.chosen_slug := pyOr_of_falsy hf
      have h2 : pyOr o.chosen_slug (some "story") = some "story" := pyOr_of_falsy hc
      simp [StoryScraperOptions.effective_slug, pyOrD, h1, h2]
    · intro hf hc
      have h1 : pyOr o.author o.chosen_author = o.chosen_author := pyOr_of_falsy hf
      have h2 : pyOr o.chosen_author (some "Unknown") = some "Unknown" := pyOr_of_falsy hc
      simp [StoryScraperOptions.effective_author, pyOrD, h1, h2]
  · intro s h hs
    have ht : pyTruthy o.name = true := by simp [pyTruthy, h, hs]
    have hor : ∀ b, pyOr o.name b = o.name := fun b => pyOr_of_truthy ht
    have wname : ∀ info, (wattpad_postprocess_listing o info).name = o.name := by
      intro info
      rcases info with _ | ⟨title, author⟩
      · rfl
      · rcases title with _ | t <;> rcases author with _ | a <;>
          simp only [wattpad_postprocess_listing] <;>
          (try split_ifs) <;> simp_all [hor]
    have iname : ∀ m, (inkitt_update_options_from_metadata o m).name = o.name := by
      intro m
      rcases m with _ | ⟨headline, author⟩
      · rfl
      · rcases headline with _ | hd <;> rcases author with _ | a <;>
          simp only [inkitt_update_options_from_metadata] <;>
          (try split_ifs) <;> simp_all [hor]
    have pname : ∀ m, (patreon_update_options_from_metadata o m).name = o.name := by
      intro m
      rcases m with _ | ⟨mname, mheadline, mauthor⟩
      · rfl
      · simp only [patreon_update_options_from_metadata]
        rcases hv : pyOr mname mheadline with _ | hd <;>
          rcases mauthor with _ | a <;>
          simp only [] <;>
          (try split_ifs) <;> simp_all [hor]
    have aname : ∀ t a, (ao3_postprocess_listing o t a).name = o.name := by
      intro t a
      rcases t with _ | tt <;> rcases a with _ | aa <;>
        simp only [ao3_postprocess_listing] <;>
        (try split_ifs) <;> simp_all [hor]
    exact ⟨fun info => effective_name_of_user ((wname info).trans h) hs,
           fun m => effective_name_of_user ((iname m).trans h) hs,
           fun m => effective_name_of_user ((pname m).trans h) hs,
           fun t a => effective_name_of_user ((aname t a).trans h) hs⟩

/-- C4 witness: with user name `"My Name"` and an inferred Wattpad title
`"Site Title"`, the effective name remains `"My Name"` after the
Wattpad, Inkitt, Patreon and AO3 enrichment steps. -/
theorem effective_name_user_precedence_witness :
    (wattpad_postprocess_listing
      ⟨some "My Name", none, none, none, none, none⟩
      (some ⟨some "Site Title", some "by Site Author"⟩)).effective_name = "My Name" ∧
    (patreon_update_options_from_metadata
      ⟨some "My Name", none, none, none, none, none⟩
      (some ⟨some "Site Title", none, some "Someone"⟩)).effective_name = "My Name" :=
  ⟨((effective_name_user_precedence
      ⟨some "My Name", none, none, none, none, none⟩).2 "My Name" rfl (by decide)).1
        (some ⟨some "Site Title", some "by Site Author"⟩),
   ((effective_name_user_precedence
      ⟨some "My Name", none, none, none, none, none⟩).2 "My Name" rfl (by decide)).2.2.1
        (some ⟨some "Site Title", none, some "Someone"⟩)⟩

/-- C6 counterexample: an AO3 listing page with zero download links
makes `_select_urls` raise a fatal `ValueError` during discovery — it
does not warn and fall back to generic link scraping as claimed. -/
theorem ao3_select_urls_zero_links_counterexample :
    ao3_select_urls "https://archiveofourown.org/works/777" []
      = Except.error "Unable to locate EPUB download link on AO3 page." := rfl

/-- C6 (amended): AO3 discovery raises a fatal error when the listing
page has no download link; with one or more download links it silently
uses the first (no warning, no fallback).  The warning plus fallback to
generic behaviour happens later, in `fetch_phase`, precisely when the
persisted download list does not contain exactly one URL. -/
theorem ao3_download_link_handling (base_url : String) :
    (ao3_select_urls base_url []
      = Except.error "Unable to locate EPUB download link on AO3 page.") ∧
    (∀ href rest, pyStrip href ≠ "" →
      ao3_select_urls base_url (href :: rest) = Except.ok [urljoin base_url href]) ∧
    (∀ urls : List String,
      (ao3_fetch_phase_uses_fallback urls = true ↔ urls.length ≠ 1) ∧
      (ao3_fetch_phase_warnings urls ≠ [] ↔ urls.length ≠ 1)) := by
  refine ⟨rfl, ?_, ?_⟩
  · intro href rest h
    simp [ao3_select_urls, h]
  · intro urls
    constructor
    · simp [ao3_fetch_phase_uses_fallback]
    · by_cases h : urls.length = 1 <;> simp [ao3_fetch_phase_warnings, h]

/-- C6 witness: with two download links the first is used; a two-URL
download list triggers the fetch-phase fallback and its warning. -/
theorem ao3_download_link_handling_witness :
    ao3_select_urls "https://archiveofourown.org/works/777"
        ["/downloads/1.epub", "/downloads/2.epub"]
      = Except.ok [urljoin "https://archiveofourown.org/works/777" "/downloads/1.epub"] ∧
    ao3_fetch_phase_uses_fallback ["a", "b"] = true :=
  ⟨(ao3_download_link_handling "https://archiveofourown.org/works/777").2.1
      "/downloads/1.epub" ["/downloads/2.epub"] (by decide),
   ((ao3_download_link_handling "x").2.2 ["a", "b"]).1.mpr (by decide)⟩

/-- C7 counterexample: a page whose ld+json tier yields name `"X"` and
whose HTML title tier yields name `"Y"` ends with name `"Y"` — the
title tier is consulted even though an earlier tier produced a value,
and it overrides it. -/
theorem patreon_title_tier_overrides_counterexample :
    (patreon_combine_metadata
        (some { name := some "X", headline := none, author := none })
        none
        (some { name := some "Y", headline := none, author := none }))
      = some { name := some "Y", headline := none, author := none } ∧
    (patreon_update_options_from_metadata
        ⟨none, none, none, none, none, none⟩
        (patreon_combine_metadata
          (some { name := some "X", headline := none, author := none })
          none
          (some { name := some "Y", headline := none, author := none }))).chosen_name
      = some "Y" := by decide

/-- C7 (amended): the Patreon metadata tiers combine as follows: the
bootstrap (`__NEXT_DATA__`) tier is only consulted when the
structured-data tier produced nothing, and when the title tier produces
nothing the result is exactly the first non-empty of the first two
tiers; but the HTML-title tier is always consulted, and any name or
author it yields overrides the earlier tiers' values (dict-merge with
the title dict last); values the title tier lacks survive from the
earlier tiers. -/
theorem patreon_metadata_tiers (ldjson next_data title_fallback : Option PatreonMetadata) :
    (∀ m next_data', ldjson = some m →
      patreon_combine_metadata ldjson next_data title_fallback
        = patreon_combine_metadata ldjson next_data' title_fallback) ∧
    (title_fallback = none →
      patreon_combine_metadata ldjson next_data title_fallback = (ldjson <|> next_data)) ∧
    (∀ fb, title_fallback = some fb →
      ∃ m, patreon_combine_metadata ldjson next_data title_fallback = some m ∧
        (∀ y, fb.name = some y → m.name = some y) ∧
        (∀ y, fb.author = some y → m.author = some y) ∧
        (fb.name = none →
          m.name = ((ldjson <|> next_data).getD
            { name := none, headline := none, author := none }).name)) := by
  refine ⟨?_, ?_, ?_⟩
  · intro m next_data' h
    subst h
    simp [patreon_combine_metadata]
  · intro h
    subst h
    simp [patreon_combine_metadata]
  · intro fb h
    subst h
    refine ⟨_, rfl, ?_, ?_, ?_⟩
    · intro y hy
      simp [patreonDictMerge, hy]
    · intro y hy
      simp [patreonDictMerge, hy]
    · intro hy
      simp [patreonDictMerge, hy]

/-- C7 witness: with ld+json name present the bootstrap tier is
irrelevant; with no title tier the ld+json value is the result; a title
name overrides an ld+json name. -/
theorem patreon_metadata_tiers_witness :
    patreon_combine_metadata
        (some { name := some "X", headline := none, author := none })
        (some { name := some "Z", headline := none, author := none })
        none
      = patreon_combine_metadata
          (some { name := some "X", headline := none, author := none })
          none
          none ∧
    patreon_combine_metadata
        (some { name := some "X", headline := none, author := none })
        none
        none
      = some { name := some "X", headline := none, author := none } :=
  ⟨(patreon_metadata_tiers
      (some { name := some "X", headline := none, author := none })
      (some { name := some "Z", headline := none, author := none })
      none).1 _ none rfl,
   (patreon_metadata_tiers
      (some { name := some "X", headline := none, author := none })
      none
      none).2.1 rfl⟩

lemma pyDictSet_keys_mem (m : List (String × DeviantArtPayload)) (k : String)
    (v : DeviantArtPayload) (x : String) :
    x ∈ (pyDictSet m k v).map (fun e => e.1) ↔ x ∈ m.map (fun e => e.1) ∨ x = k := by
  by_cases hin : m.any (fun p => p.1 = k)
  · rw [pyDictSet, if_pos hin]
    constructor
    · intro hx
      obtain ⟨q, hq, hqx⟩ := List.mem_map.mp hx
      obtain ⟨p, hp, hpq⟩ := List.mem_map.mp hq
      by_cases hk : p.1 = k
      · rw [if_pos hk] at hpq
        rw [← hpq] at hqx
        exact Or.inr hqx.symm
      · rw [if_neg hk] at hpq
        subst hpq
        exact Or.inl (List.mem_map.mpr ⟨p, hp, hqx⟩)
    · intro hx
      rcases hx with hx | rfl
      · obtain ⟨p, hp, hpx⟩ := List.mem_map.mp hx
        by_cases hk : p.1 = k
        · refine List.mem_map.mpr ⟨(k, v), List.mem_map.mpr ⟨p, hp, by rw [if_pos hk]⟩, ?_⟩
          rw [← hpx, hk]
        · exact List.mem_map.mpr ⟨p, List.mem_map.mpr ⟨p, hp, by rw [if_neg hk]⟩, hpx⟩
      · obtain ⟨p, hp, hk⟩ := List.any_eq_true.mp hin
        simp only [decide_eq_true_eq] at hk
        exact List.mem_map.mpr ⟨(x, v), List.mem_map.mpr ⟨p, hp, by rw [if_pos hk]⟩, rfl⟩
  · rw [pyDictSet, if_neg hin, List.map_append, List.mem_append]
    simp

lemma pyDictSet_mem_src (m : List (String × DeviantArtPayload)) (k : String)
    (v : DeviantArtPayload) :
    ∀ e ∈ pyDictSet m k v, e ∈ m ∨ e = (k, v) := by
  intro e he
  by_cases hin : m.any (fun p => p.1 = k)
  · rw [pyDictSet, if_pos hin] at he
    obtain ⟨p, hp, hpe⟩ := List.mem_map.mp he
    by_cases hk : p.1 = k
    · rw [if_pos hk] at hpe
      exact Or.inr hpe.symm
    · rw [if_neg hk] at hpe
      exact Or.inl (hpe ▸ hp)
  · rw [pyDictSet, if_neg hin, List.mem_append] at he
    rcases he with he | he
    · exact Or.inl he
    · exact Or.inr (List.mem_singleton.mp he)

lemma deviantart_fold_keys (now : String) :
    ∀ (files : List DeviantArtHtmlFile) (acc : List (String × DeviantArtPayload)) (x : String),
      x ∈ (files.foldl
            (fun metadata_by_id file =>
              match file.deviation_id with
              | none => metadata_by_id
              | some deviation_id =>
                pyDictSet metadata_by_id deviation_id
                  { deviation_id := deviation_id
                    saveto := "html/" ++ file.name
                    last_updated := now
                    extracted := file.extracted }) acc).map (fun e => e.1)
        ↔ x ∈ acc.map (fun e => e.1) ∨ some x ∈ files.map (fun f => f.deviation_id) := by
  intro files
  induction files with
  | nil => intro acc x; simp
  | cons f fs ih =>
    intro acc x
    rcases hf : f.deviation_id with _ | did
    · simp only [List.foldl_cons, hf, List.map_cons, List.mem_cons]
      rw [ih]
      simp [hf]
    · simp only [List.foldl_cons, hf, List.map_cons, List.mem_cons]
      rw [ih, pyDictSet_keys_mem]
      simp only [Option.some.injEq]
      tauto

lemma deviantart_fold_fresh (now : String) :
    ∀ (files : List DeviantArtHtmlFile) (acc : List (String × DeviantArtPayload)),
      (∀ e ∈ acc, e.2.last_updated = now) →
      ∀ e ∈ files.foldl
            (fun metadata_by_id file =>
              match file.deviation_id with
              | none => metadata_by_id
              | some deviation_id =>
                pyDictSet metadata_by_id deviation_id
                  { deviation_id := deviation_id
                    saveto := "html/" ++ file.name
                    last_updated := now
                    extracted := file.extracted }) acc,
        e.2.last_updated = now := by
  intro files
  induction files with
  | nil => intro acc hacc; simpa using hacc
  | cons f fs ih =>
    intro acc hacc
    rcases hf : f.deviation_id with _ | did
    · simp only [List.foldl_cons, hf]
      exact ih acc hacc
    · simp only [List.foldl_cons, hf]
      apply ih
      intro e he
      rcases pyDictSet_mem_src acc did _ e he with h | h
      · exact hacc e h
      · rw [h]

/-- C9 (amended): `_write_metadata` does not merge: when any html files
are present, the sidecar after the run is rebuilt entirely from those
files (independent of the prior sidecar), its keys are exactly the
deviation ids of the current files, and every entry carries the fresh
`last_updated` timestamp; the prior sidecar only survives when the html
directory holds no files at all (the early return). -/
theorem deviantart_metadata_rebuilt (prior prior' : List (String × DeviantArtPayload))
    (now : String) (files : List DeviantArtHtmlFile) :
    (files ≠ [] →
      deviantart_metadata_after_run prior now files
        = deviantart_metadata_after_run prior' now files) ∧
    (∀ k, k ∈ (deviantart_build_metadata now files).map (fun e => e.1)
      ↔ some k ∈ files.map (fun f => f.deviation_id)) ∧
    (∀ e ∈ deviantart_build_metadata now files, e.2.last_updated = now) ∧
    (files = [] → deviantart_metadata_after_run prior now files = prior) := by
  refine ⟨?_, ?_, ?_, ?_⟩
  · intro h
    simp [deviantart_metadata_after_run, h]
  · intro k
    have := deviantart_fold_keys now files [] k
    simpa [deviantart_build_metadata] using this
  · have := deviantart_fold_fresh now files [] (by simp)
    simpa [deviantart_build_metadata] using this
  · intro h
    simp [deviantart_metadata_after_run, h]

/-- C9 witness: rebuilding from one html file with deviation id `"Y"`
gives the same sidecar whatever sidecar was on disk before, keyed by
`"Y"` with the fresh timestamp. -/
theorem deviantart_metadata_rebuilt_witness :
    deviantart_metadata_after_run [("X", ⟨"X", "html/x.html", "2020", "old"⟩)]
        "2026-10-12T00:00:00+00:00" [⟨"y.html", some "Y", "data"⟩]
      = deviantart_metadata_after_run []
          "2026-10-12T00:00:00+00:00" [⟨"y.html", some "Y", "data"⟩] ∧
    ("Y" ∈ (deviantart_build_metadata "2026-10-12T00:00:00+00:00"
        [⟨"y.html", some "Y", "data"⟩]).map (fun e => e.1) ↔
      some "Y" ∈ [⟨"y.html", some "Y", "data"⟩].map
        (fun f : DeviantArtHtmlFile => f.deviation_id)) :=
  ⟨(deviantart_metadata_rebuilt [("X", ⟨"X", "html/x.html", "2020", "old"⟩)] []
      "2026-10-12T00:00:00+00:00" [⟨"y.html", some "Y", "data"⟩]).1 (by decide),
   (deviantart_metadata_rebuilt [] [] "2026-10-12T00:00:00+00:00"
      [⟨"y.html", some "Y", "data"⟩]).2.1 "Y"⟩

/-- C9 counterexample: an existing sidecar entry keyed `"X"` whose item
is not among the files being re-transformed is gone after the run — the
sidecar is replaced wholesale, not merged by identifier. -/
theorem deviantart_sidecar_replaced_counterexample :
    (deviantart_metadata_after_run [("X", ⟨"X", "html/x.html", "2020", "old"⟩)]
        "2026-10-12T00:00:00+00:00" [⟨"y.html", some "Y", "data"⟩]).map (fun e => e.1)
      = ["Y"] ∧
    "X" ∉ (deviantart_metadata_after_run [("X", ⟨"X", "html/x.html", "2020", "old"⟩)]
        "2026-10-12T00:00:00+00:00" [⟨"y.html", some "Y", "data"⟩]).map (fun e => e.1) := by
  decide

/-- Spec-side description of the generic discoverer's scope rule
(§4.3): the scraped hrefs resolved against the start URL and restricted
to the same scheme and host and to paths under the start URL's
directory prefix, in scrape order, duplicates included. -/
def resolved_in_scope (base : String) (hrefs : List String) : List String :=
  (hrefs.map (urljoin base)).filter
    (fun u => in_scope (urlparse base) (urlparse u)
      (compute_base_directory (urlparse base).path))

lemma collect_fold_generic (j : String → String) (c : String → Bool) :
    ∀ (hrefs : List String) (acc : List String),
      hrefs.foldl (fun ordered href =>
        if c (j href) then add_url ordered (j href) else ordered) acc
        = ((hrefs.map j).filter c).foldl add_url acc := by
  intro hrefs
  induction hrefs with
  | nil => intro acc; rfl
  | cons h t ih =>
    intro acc
    by_cases hc : c (j h) <;> simp [hc, ih]

lemma collect_in_scope_eq (base : String) (hrefs : List String) :
    collect_in_scope base hrefs = (resolved_in_scope base hrefs).foldl add_url [] := by
  simp only [collect_in_scope, resolved_in_scope]
  exact collect_fold_generic (urljoin base)
    (fun u => in_scope (urlparse base) (urlparse u)
      (compute_base_directory (urlparse base).path)) hrefs []

/-- First occurrences of the elements of a list that are not already in
`seen`, in order (the effect of repeated `add_url`). -/
def firstOccAux (seen : List String) : List String → List String
  | [] => []
  | x :: xs =>
    if x ∈ seen then firstOccAux seen xs
    else x :: firstOccAux (seen ++ [x]) xs

lemma foldl_add_url_eq (l : List String) :
    ∀ (seen : List String), l.foldl add_url seen = seen ++ firstOccAux seen l := by
  induction l with
  | nil => intro seen; simp [firstOccAux]
  | cons x xs ih =>
    intro seen
    by_cases hx : x ∈ seen
    · have : add_url seen x = seen := by simp [add_url, hx]
      simp [List.foldl_cons, this, firstOccAux, hx, ih]
    · have : add_url seen x = seen ++ [x] := by simp [add_url, hx]
      rw [List.foldl_cons, this, ih, firstOccAux]
      simp [hx]

lemma firstOccAux_mem (l : List String) :
    ∀ (seen : List String) (u : String),
      u ∈ firstOccAux seen l ↔ u ∈ l ∧ u ∉ seen := by
  induction l with
  | nil => intro seen u; simp [firstOccAux]
  | cons x xs ih =>
    intro seen u
    by_cases hx : x ∈ seen
    · rw [firstOccAux, if_pos hx, ih]
      constructor
      · rintro ⟨hu, hs⟩
        exact ⟨List.mem_cons_of_mem x hu, hs⟩
      · rintro ⟨hu, hs⟩
        rcases List.mem_cons.mp hu with rfl | hu
        · exact absurd hx hs
        · exact ⟨hu, hs⟩
    · rw [firstOccAux, if_neg hx]
      constructor
      · intro hu
        rcases List.mem_cons.mp hu with rfl | hu
        · exact ⟨List.mem_cons_self _ _, hx⟩
        · obtain ⟨h1, h2⟩ := (ih (seen ++ [x]) u).mp hu
          refine ⟨List.mem_cons_of_mem x h1, fun hcontr => h2 ?_⟩
          exact List.mem_append_left [x] hcontr
      · rintro ⟨hu, hs⟩
        rcases List.mem_cons.mp hu with rfl | hu
        · exact List.mem_cons_self _ _
        · by_cases hux : u = x
          · subst hux
            exact List.mem_cons_self _ _
          · refine List.mem_cons_of_mem x ((ih (seen ++ [x]) u).mpr ⟨hu, ?_⟩)
            intro hcontr
            rcases List.mem_append.mp hcontr with hc | hc
            · exact hs hc
            · exact hux (List.mem_singleton.mp hc)

lemma firstOccAux_nodup (l : List String) :
    ∀ (seen : List String), (firstOccAux seen l).Nodup := by
  induction l with
  | nil => intro seen; simp [firstOccAux]
  | cons x xs ih =>
    intro seen
    by_cases hx : x ∈ seen
    · rw [firstOccAux, if_pos hx]
      exact ih seen
    · rw [firstOccAux, if_neg hx]
      refine List.nodup_cons.mpr ⟨?_, ih (seen ++ [x])⟩
      intro hcontr
      obtain ⟨_, h2⟩ := (firstOccAux_mem xs (seen ++ [x]) x).mp hcontr
      exact h2 (List.mem_append_right seen (List.mem_singleton_self x))

lemma firstOccAux_sublist (l : List String) :
    ∀ (seen : List String), (firstOccAux seen l).Sublist l := by
  induction l with
  | nil => intro seen; simp [firstOccAux]
  | cons x xs ih =>
    intro seen
    by_cases hx : x ∈ seen
    · rw [firstOccAux, if_pos hx]
      exact List.Sublist.cons x (ih seen)
    · rw [firstOccAux, if_neg hx]
      exact List.Sublist.cons₂ x (ih (seen ++ [x]))

lemma firstOccAux_pairwise_indexOf (l : List String) :
    ∀ (seen : List String),
      (firstOccAux seen l).Pairwise (fun u v => l.indexOf u < l.indexOf v) := by
  induction l with
  | nil => intro seen; simp [firstOccAux]
  | cons x xs ih =>
    intro seen
    have lift : ∀ (s : List String), x ∈ s →
        (firstOccAux s xs).Pairwise
          (fun u v => (x :: xs).indexOf u < (x :: xs).indexOf v) := by
      intro s hxs
      refine List.Pairwise.imp_of_mem ?_ (ih s)
      intro u v hu hv huv
      have hu2 := (firstOccAux_mem xs s u).mp hu
      have hv2 := (firstOccAux_mem xs s v).mp hv
      have hux : x ≠ u := fun h => hu2.2 (h ▸ hxs)
      have hvx : x ≠ v := fun h => hv2.2 (h ▸ hxs)
      rw [List.indexOf_cons_ne xs hux, List.indexOf_cons_ne xs hvx]
      omega
    by_cases hx : x ∈ seen
    · rw [firstOccAux, if_pos hx]
      exact lift seen hx
    · rw [firstOccAux, if_neg hx]
      refine List.pairwise_cons.mpr
        ⟨?_, lift (seen ++ [x]) (List.mem_append_right seen (List.mem_singleton_self x))⟩
      intro v hv
      have hmem := (firstOccAux_mem xs (seen ++ [x]) v).mp hv
      have hvx : v ≠ x := fun hcontr =>
        hmem.2 (hcontr ▸ List.mem_append_right seen (List.mem_singleton_self v))
      rw [List.indexOf_cons_self, List.indexOf_cons_ne xs (Ne.symm hvx)]
      omega

lemma urls_equal_refl (u : String) : urls_equal u u = true := by
  simp [urls_equal]

lemma collect_in_scope_firstOcc (base : String) (hrefs : List String) :
    collect_in_scope base hrefs = firstOccAux [] (resolved_in_scope base hrefs) := by
  rw [collect_in_scope_eq, foldl_add_url_eq]
  simp

set_option maxHeartbeats 2000000 in
/-- C3: for every start URL and scraped href collection, the generic
discoverer's selection contains only URLs that resolve to the start
URL's scheme and host with a path under its directory prefix (hence
absolute whenever the start URL has a scheme); it has no duplicates and
preserves the order of first occurrence among the in-scope resolved
links; and it excludes everything `_urls_equal` to the start URL or to
its index-page canonical form — in particular the start URL itself. -/
theorem auto_select_urls_spec (base : String) (hrefs : List String) :
    (∀ u ∈ auto_select_urls base hrefs,
      (urlparse u).scheme = (urlparse base).scheme ∧
      (urlparse u).netloc = (urlparse base).netloc ∧
      strStartsWith (urlparse u).path
        (compute_base_directory (urlparse base).path) = true) ∧
    ((urlparse base).scheme ≠ "" →
      ∀ u ∈ auto_select_urls base hrefs, (urlparse u).scheme ≠ "") ∧
    (auto_select_urls base hrefs).Nodup ∧
    (auto_select_urls base hrefs).Sublist (resolved_in_scope base hrefs) ∧
    (auto_select_urls base hrefs).Pairwise
      (fun u v => (resolved_in_scope base hrefs).indexOf u
        < (resolved_in_scope base hrefs).indexOf v) ∧
    (∀ u ∈ auto_select_urls base hrefs,
      urls_equal u base = false ∧
      ∀ c, canonicalize_url base = some c → urls_equal u c = false) ∧
    base ∉ auto_select_urls base hrefs := by
  have hres : auto_select_urls base hrefs
      = (collect_in_scope base hrefs).filter
          (fun url => ¬ (base :: (match canonicalize_url base with
            | some c => [c] | none => [])).any (fun selfUrl => urls_equal url selfUrl)) := by
    simp only [auto_select_urls, filter_links]
  have hmem_collect : ∀ u, u ∈ collect_in_scope base hrefs →
      u ∈ resolved_in_scope base hrefs := by
    intro u hu
    rw [collect_in_scope_firstOcc] at hu
    exact ((firstOccAux_mem _ [] u).mp hu).1
  have hmem_res : ∀ u, u ∈ auto_select_urls base hrefs →
      u ∈ resolved_in_scope base hrefs := by
    intro u hu
    rw [hres] at hu
    exact hmem_collect u (List.mem_of_mem_filter hu)
  have hscope : ∀ u, u ∈ resolved_in_scope base hrefs →
      in_scope (urlparse base) (urlparse u)
        (compute_base_directory (urlparse base).path) = true := by
    intro u hu
    simp only [resolved_in_scope] at hu
    exact (List.mem_filter.mp hu).2
  have hself : ∀ u, u ∈ auto_select_urls base hrefs →
      urls_equal u base = false ∧
      ∀ c, canonicalize_url base = some c → urls_equal u c = false := by
    intro u hu
    rw [hres] at hu
    have hfilter := List.of_mem_filter hu
    obtain ⟨c, hc⟩ : ∃ c, canonicalize_url base = some c := ⟨_, rfl⟩
    simp only [hc] at hfilter
    have hany : ((base :: [c]).any fun selfUrl => urls_equal u selfUrl) = false := by
      have h1 := of_decide_eq_true hfilter
      exact Bool.eq_false_iff.mpr h1
    have hforall := List.any_eq_false.mp hany
    refine ⟨?_, fun c' hc' => ?_⟩
    · have := hforall base (List.mem_cons_self _ _)
      exact Bool.eq_false_iff.mpr this
    · have h2 : c = c' := by
        rw [hc] at hc'
        injection hc'
      subst h2
      have := hforall c (List.mem_cons_of_mem _ (List.mem_singleton_self c))
      exact Bool.eq_false_iff.mpr this
  refine ⟨?_, ?_, ?_, ?_, ?_, hself, ?_⟩
  · intro u hu
    have h := hscope u (hmem_res u hu)
    simp only [in_scope, Bool.and_eq_true, beq_iff_eq] at h
    exact ⟨h.1.1.symm, h.1.2.symm, h.2⟩
  · intro hscheme u hu
    have h := hscope u (hmem_res u hu)
    simp only [in_scope, Bool.and_eq_true, beq_iff_eq] at h
    rw [← h.1.1]
    exact hscheme
  · rw [hres, collect_in_scope_firstOcc]
    exact List.Nodup.filter _ (firstOccAux_nodup _ [])
  · rw [hres, collect_in_scope_firstOcc]
    exact (List.filter_sublist _).trans (firstOccAux_sublist _ [])
  · rw [hres, collect_in_scope_firstOcc]
    exact List.Pairwise.sublist (List.filter_sublist _) (firstOccAux_pairwise_indexOf _ [])
  · intro hcontr
    exact absurd (urls_equal_refl base) (by simp [(hself base hcontr).1])

/-- C3 witness: a concrete listing page scrape — duplicates collapse,
off-host and off-directory links are dropped, the start URL's canonical
index form is excluded, and the survivors keep scheme, host and
directory prefix. -/
theorem auto_select_urls_spec_witness :
    ((urlparse "https://ex.com/story/ch1.html").scheme
        = (urlparse "https://ex.com/story/").scheme ∧
      (urlparse "https://ex.com/story/ch1.html").netloc
        = (urlparse "https://ex.com/story/").netloc ∧
      strStartsWith (urlparse "https://ex.com/story/ch1.html").path
        (compute_base_directory (urlparse "https://ex.com/story/").path) = true) ∧
    urls_equal "https://ex.com/story/ch1.html" "https://ex.com/story/" = false := by
  have h := auto_select_urls_spec "https://ex.com/story/"
    ["ch1.html", "ch2.html", "ch1.html", "https://other.org/x", "index.html"]
  have hmem : "https://ex.com/story/ch1.html" ∈ auto_select_urls "https://ex.com/story/"
      ["ch1.html", "ch2.html", "ch1.html", "https://other.org/x", "index.html"] := by decide
  exact ⟨h.1 _ hmem, (h.2.2.2.2.2.1 _ hmem).1⟩

/-! ### C8 infrastructure: pages built from pageText literals

`wfRawLitB` is the language of the regex group `(?:\\.|[^"\\])*`: a
sequence of escape pairs and plain non-quote non-backslash characters.
`cleanJunkB` says no suffix of the filler text begins an occurrence of
the `pageText:"` marker, even when the marker itself follows. -/

def wfRawLitB : List Char → Bool
  | [] => true
  | c :: t =>
    if c = '\\' then
      match t with
      | [] => false
      | _ :: t2 => wfRawLitB t2
    else if c = '"' then false
    else wfRawLitB t

def cleanJunkB (j : List Char) : Bool :=
  (List.range j.length).all
    (fun i => !(List.isPrefixOf pageTextMarker (j.drop i ++ pageTextMarker)))

/-- A page interleaving filler text with `pageText:"…"` blocks:
`buildPageText j0 [(r1, j1), (r2, j2)]` is
`j0 pageText:"r1" j1 pageText:"r2" j2`. -/
def buildPageText : List Char → List (List Char × List Char) → List Char
  | j0, [] => j0
  | j0, (raw, j) :: rest =>
    j0 ++ pageTextMarker ++ raw ++ '"' :: buildPageText j rest

lemma parseStringGroup_quote (rest : List Char) :
    parseStringGroup ('"' :: rest) = some ([], rest) := by
  rw [parseStringGroup.eq_def]
  exact rfl

lemma parseStringGroup_esc (c2 : Char) (rest2 : List Char) :
    parseStringGroup ('\\' :: c2 :: rest2)
      = (parseStringGroup rest2).map (fun p => ('\\' :: c2 :: p.1, p.2)) := by
  rw [parseStringGroup.eq_def]
  exact rfl

lemma parseStringGroup_plain {c : Char} (hq : c ≠ '"') (hb : c ≠ '\\')
    (rest : List Char) :
    parseStringGroup (c :: rest)
      = (parseStringGroup rest).map (fun p => (c :: p.1, p.2)) := by
  rw [parseStringGroup.eq_def]
  simp [hq, hb]

lemma parseStringGroup_length_aux :
    ∀ (n : Nat) (l g r : List Char), l.length ≤ n →
      parseStringGroup l = some (g, r) → r.length < l.length := by
  intro n
  induction n with
  | zero =>
    intro l g r hl h
    have : l = [] := List.length_eq_zero.mp (Nat.le_zero.mp hl)
    subst this
    simp [parseStringGroup] at h
  | succ n ih =>
    intro l g r hl h
    rcases l with _ | ⟨c, t⟩
    · simp [parseStringGroup] at h
    · by_cases hq : c = '"'
      · subst hq
        rw [parseStringGroup_quote] at h
        injection h with h2
        injection h2 with h3 h4
        subst h4
        simp
      · by_cases hb : c = '\\'
        · subst hb
          rcases t with _ | ⟨c2, t2⟩
          · simp [parseStringGroup] at h
          · rw [parseStringGroup_esc] at h
            rcases hp : parseStringGroup t2 with _ | ⟨g2, r2⟩
            · rw [hp] at h; simp at h
            · rw [hp] at h
              simp only [Option.map_some', Option.some.injEq, Prod.mk.injEq] at h
              have hlt := ih t2 g2 r2 (by simp at hl; omega) hp
              have : r = r2 := h.2.symm
              subst this
              simp
              omega
        · rw [parseStringGroup_plain hq hb] at h
          rcases hp : parseStringGroup t with _ | ⟨g2, r2⟩
          · rw [hp] at h; simp at h
          · rw [hp] at h
            simp only [Option.map_some', Option.some.injEq, Prod.mk.injEq] at h
            have hlt := ih t g2 r2 (by simp at hl; omega) hp
            have : r = r2 := h.2.symm
            subst this
            simp
            omega

lemma parseStringGroup_length {l g r : List Char}
    (h : parseStringGroup l = some (g, r)) : r.length < l.length :=
  parseStringGroup_length_aux l.length l g r (le_refl _) h

lemma wfRawLitB_esc (c2 : Char) (t2 : List Char) :
    wfRawLitB ('\\' :: c2 :: t2) = wfRawLitB t2 := by
  rw [wfRawLitB.eq_def]
  exact rfl

lemma wfRawLitB_plain {c : Char} (hb : c ≠ '\\') (hq : c ≠ '"') (t : List Char) :
    wfRawLitB (c :: t) = wfRawLitB t := by
  rw [wfRawLitB.eq_def]
  simp [hb, hq]

lemma wf_parse_aux :
    ∀ (n : Nat) (raw : List Char), raw.length ≤ n → wfRawLitB raw = true →
      ∀ rest, parseStringGroup (raw ++ '"' :: rest) = some (raw, rest) := by
  intro n
  induction n with
  | zero =>
    intro raw h _ rest
    have : raw = [] := List.length_eq_zero.mp (Nat.le_zero.mp h)
    subst this
    simpa using parseStringGroup_quote rest
  | succ n ih =>
    intro raw h hwf rest
    rcases raw with _ | ⟨c, t⟩
    · simpa using parseStringGroup_quote rest
    · by_cases hb : c = '\\'
      · subst hb
        rcases t with _ | ⟨c2, t2⟩
        · exact absurd hwf (by decide)
        · have hwf2 : wfRawLitB t2 = true := (wfRawLitB_esc c2 t2) ▸ hwf
          have hlen : t2.length ≤ n := by simp at h; omega
          have hih := ih t2 hlen hwf2 rest
          calc parseStringGroup (('\\' :: c2 :: t2) ++ '"' :: rest)
              = parseStringGroup ('\\' :: c2 :: (t2 ++ '"' :: rest)) := by simp
            _ = (parseStringGroup (t2 ++ '"' :: rest)).map
                  (fun p => ('\\' :: c2 :: p.1, p.2)) := parseStringGroup_esc _ _
            _ = some ('\\' :: c2 :: t2, rest) := by rw [hih]; rfl
      · by_cases hq : c = '"'
        · subst hq
          have : wfRawLitB ('"' :: t) = false := by
            rw [wfRawLitB.eq_def]
            exact rfl
          rw [this] at hwf
          exact absurd hwf (by decide)
        · have hwf2 : wfRawLitB t = true := (wfRawLitB_plain hb hq t) ▸ hwf
          have hlen : t.length ≤ n := by simp at h; omega
          have hih := ih t hlen hwf2 rest
          calc parseStringGroup ((c :: t) ++ '"' :: rest)
              = parseStringGroup (c :: (t ++ '"' :: rest)) := by simp
            _ = (parseStringGroup (t ++ '"' :: rest)).map
                  (fun p => (c :: p.1, p.2)) := parseStringGroup_plain hq hb _
            _ = some (c :: t, rest) := by rw [hih]; rfl

lemma wf_parse {raw : List Char} (hwf : wfRawLitB raw = true) (rest : List Char) :
    parseStringGroup (raw ++ '"' :: rest) = some (raw, rest) :=
  wf_parse_aux raw.length raw (le_refl _) hwf rest

lemma findPageTextsGo_nil (f : Nat) : findPageTextsGo f [] = [] := by
  cases f <;> rfl

lemma findGo_congr :
    ∀ (n f1 f2 : Nat) (l : List Char), l.length ≤ n → l.length ≤ f1 → l.length ≤ f2 →
      findPageTextsGo f1 l = findPageTextsGo f2 l := by
  intro n
  induction n with
  | zero =>
    intro f1 f2 l hl _ _
    have : l = [] := List.length_eq_zero.mp (Nat.le_zero.mp hl)
    subst this
    rw [findPageTextsGo_nil, findPageTextsGo_nil]
  | succ n ih =>
    intro f1 f2 l hl h1 h2
    rcases l with _ | ⟨c, t⟩
    · rw [findPageTextsGo_nil, findPageTextsGo_nil]
    · rcases f1 with _ | f1
      · simp at h1
      · rcases f2 with _ | f2
        · simp at h2
        · simp only [List.length_cons] at hl h1 h2
          simp only [findPageTextsGo]
          by_cases hpre : List.isPrefixOf pageTextMarker (c :: t)
          · simp only [hpre, if_true]
            rcases hp : parseStringGroup ((c :: t).drop pageTextMarker.length)
              with _ | ⟨g, r⟩
            · exact ih f1 f2 t (by omega) (by omega) (by omega)
            · have hr : r.length < (c :: t).length := by
                have h3 := parseStringGroup_length hp
                have h4 : ((c :: t).drop pageTextMarker.length).length
                    ≤ (c :: t).length := by
                  rw [List.length_drop]
                  omega
                omega
              simp only [List.length_cons] at hr
              exact congrArg (List.cons g) (ih f1 f2 r (by omega) (by omega) (by omega))
          · simp only [hpre, if_false]
            exact ih f1 f2 t (by omega) (by omega) (by omega)

lemma findPageTextsGo_eq (f : Nat) (l : List Char) (h : l.length ≤ f) :
    findPageTextsGo f l = findPageTexts l :=
  findGo_congr l.length f l.length l (le_refl _) h (le_refl _)

lemma find_skip_junk :
    ∀ (junk rest : List Char),
      (∀ i, i < junk.length →
        List.isPrefixOf pageTextMarker ((junk ++ rest).drop i) = false) →
      findPageTexts (junk ++ rest) = findPageTexts rest := by
  intro junk
  induction junk with
  | nil => intro rest _; simp
  | cons c j ih =>
    intro rest hno
    have hpre : List.isPrefixOf pageTextMarker ((c :: j) ++ rest) = false := by
      have := hno 0 (by simp)
      simpa using this
    have step : findPageTexts ((c :: j) ++ rest) = findPageTexts (j ++ rest) := by
      show findPageTextsGo ((c :: j) ++ rest).length ((c :: j) ++ rest) = _
      rw [List.cons_append]
      simp only [List.length_cons, findPageTextsGo]
      rw [List.cons_append] at hpre
      simp only [hpre, if_false]
      exact findPageTextsGo_eq _ _ (le_refl _)
    rw [step]
    apply ih
    intro i hi
    have := hno (i + 1) (by simp; omega)
    simpa using this

lemma clean_no_match (j rest : List Char) (hclean : cleanJunkB j = true)
    (hrest : rest = [] ∨ ∃ r, rest = pageTextMarker ++ r) :
    ∀ i, i < j.length →
      List.isPrefixOf pageTextMarker ((j ++ rest).drop i) = false := by
  intro i hi
  by_contra hcontr
  rw [Bool.not_eq_false] at hcontr
  have hdrop : (j ++ rest).drop i = j.drop i ++ rest :=
    List.drop_append_of_le_length (le_of_lt hi)
  rw [hdrop] at hcontr
  have hpref : pageTextMarker <+: (j.drop i ++ rest) :=
    List.isPrefixOf_iff_prefix.mp hcontr
  have key : pageTextMarker <+: (j.drop i ++ pageTextMarker) := by
    rcases hrest with rfl | ⟨r, rfl⟩
    · rw [List.append_nil] at hpref
      exact hpref.trans (List.prefix_append _ _)
    · by_cases hle : pageTextMarker.length ≤ (j.drop i).length
      · have h2 : pageTextMarker <+: j.drop i :=
          List.prefix_of_prefix_length_le hpref (List.prefix_append _ _) hle
        exact h2.trans (List.prefix_append _ _)
      · push_neg at hle
        have h2 : j.drop i <+: pageTextMarker :=
          List.prefix_of_prefix_length_le (List.prefix_append _ _) hpref (le_of_lt hle)
        obtain ⟨d, hd⟩ := h2
        have hd1 : d <+: pageTextMarker ++ r := by
          have h3 : j.drop i ++ d <+: j.drop i ++ (pageTextMarker ++ r) := by
            rw [hd]
            exact hpref
          exact (List.prefix_append_right_inj (j.drop i)).mp h3
        have hdlen : d.length ≤ pageTextMarker.length := by
          have := congrArg List.length hd
          simp at this
          omega
        have hd2 : d <+: pageTextMarker :=
          List.prefix_of_prefix_length_le hd1 (List.prefix_append _ _) hdlen
        have h4 : j.drop i ++ d <+: j.drop i ++ pageTextMarker :=
          (List.prefix_append_right_inj (j.drop i)).mpr hd2
        nth_rewrite 1 [← hd]
        exact h4
  have hall := List.all_eq_true.mp hclean i (List.mem_range.mpr hi)
  rw [List.isPrefixOf_iff_prefix.mpr key] at hall
  exact absurd hall (by decide)

lemma find_block {raw : List Char} (hwf : wfRawLitB raw = true) (rest : List Char) :
    findPageTexts (pageTextMarker ++ (raw ++ '"' :: rest))
      = raw :: findPageTexts rest := by
  have hpre : List.isPrefixOf pageTextMarker
      (pageTextMarker ++ (raw ++ '"' :: rest)) = true :=
    List.isPrefixOf_iff_prefix.mpr (List.prefix_append _ _)
  have hdrop : (pageTextMarker ++ (raw ++ '"' :: rest)).drop pageTextMarker.length
      = raw ++ '"' :: rest := List.drop_left _ _
  have htotal : (pageTextMarker ++ (raw ++ '"' :: rest)).length
      = pageTextMarker.length + raw.length + 1 + rest.length := by
    simp
    omega
  have hmark : pageTextMarker.length = 10 := by decide
  obtain ⟨L, hL⟩ : ∃ L, (pageTextMarker ++ (raw ++ '"' :: rest)).length = L + 1 := by
    refine ⟨(pageTextMarker ++ (raw ++ '"' :: rest)).length - 1, ?_⟩
    rw [htotal, hmark]
    omega
  obtain ⟨c, t, hct⟩ : ∃ c t, pageTextMarker ++ (raw ++ '"' :: rest) = c :: t := by
    rcases hx : pageTextMarker ++ (raw ++ '"' :: rest) with _ | ⟨c, t⟩
    · rw [hx] at hL
      simp at hL
    · exact ⟨c, t, rfl⟩
  show findPageTextsGo (pageTextMarker ++ (raw ++ '"' :: rest)).length
      (pageTextMarker ++ (raw ++ '"' :: rest)) = _
  rw [hL, hct]
  simp only [findPageTextsGo]
  rw [← hct, hpre]
  simp only [if_true]
  rw [hdrop, wf_parse hwf]
  have hrest : rest.length ≤ L := by
    rw [htotal, hmark] at hL
    omega
  exact congrArg (List.cons raw) (findPageTextsGo_eq L rest hrest)

lemma find_build :
    ∀ (blocks : List (List Char × List Char)) (junk0 : List Char),
      cleanJunkB junk0 = true →
      (∀ b ∈ blocks, wfRawLitB b.1 = true ∧ cleanJunkB b.2 = true) →
      findPageTexts (buildPageText junk0 blocks) = blocks.map (fun b => b.1) := by
  intro blocks
  induction blocks with
  | nil =>
    intro junk0 hclean _
    show findPageTexts junk0 = []
    have h1 : findPageTexts (junk0 ++ []) = findPageTexts [] := by
      apply find_skip_junk
      exact clean_no_match junk0 [] hclean (Or.inl rfl)
    simpa using h1
  | cons b bs ih =>
    intro junk0 hclean hblocks
    obtain ⟨raw, j⟩ := b
    obtain ⟨hwf, hjclean⟩ := hblocks (raw, j) (List.mem_cons_self _ _)
    have hbs : ∀ b ∈ bs, wfRawLitB b.1 = true ∧ cleanJunkB b.2 = true :=
      fun b hb => hblocks b (List.mem_cons_of_mem _ hb)
    have hshape : buildPageText junk0 ((raw, j) :: bs)
        = junk0 ++ (pageTextMarker ++ (raw ++ '"' :: buildPageText j bs)) := by
      simp [buildPageText]
    rw [hshape]
    rw [find_skip_junk junk0 _
      (clean_no_match junk0 _ hclean (Or.inr ⟨_, rfl⟩))]
    rw [find_block hwf]
    rw [ih j hjclean hbs]
    rfl

/-- C8 counterexample: a pageText literal with trailing whitespace —
the extractor strips each decoded literal, so the output is `"hi"`, not
the claim's plain unicode-unescape `"hi "`. -/
theorem literotica_pagetext_counterexample :
    literotica_extract_page_texts "pageText:\"hi \"" = ["hi"] ∧
    literotica_convert_html_to_markdown none "pageText:\"hi \"" = some "hi" ∧
    ("hi" : String) ≠ "hi " := by decide

/-- C8 (amended): for every chapter text interleaving marker-free
filler with well-formed `pageText:"…"` literals, the extractor recovers
exactly the literals in order, each processed by unicode-unescape,
newline normalisation, whitespace strip and tilde-line sanitisation
(failed decodes and empty results dropped); when at least one segment
survives, the output is the segments joined by blank lines, prefixed by
`"# <headline>\n\n"` and suffixed by a newline when structured-data
headline metadata is present. -/
theorem literotica_pagetext_output (junk0 : List Char)
    (blocks : List (List Char × List Char)) (headline : Option String)
    (hclean : cleanJunkB junk0 = true)
    (hblocks : ∀ b ∈ blocks, wfRawLitB b.1 = true ∧ cleanJunkB b.2 = true) :
    literotica_extract_page_texts (String.mk (buildPageText junk0 blocks))
      = ((blocks.map (fun b => b.1)).filterMap literotica_process_literal).map String.mk ∧
    (((blocks.map (fun b => b.1)).filterMap literotica_process_literal).map String.mk ≠ [] →
      literotica_convert_html_to_markdown headline (String.mk (buildPageText junk0 blocks))
        = some (match literotica_extract_heading headline with
            | some heading => "# " ++ heading ++ "\n\n"
                ++ String.intercalate "\n\n"
                  (((blocks.map (fun b => b.1)).filterMap
                    literotica_process_literal).map String.mk)
                ++ "\n"
            | none => String.intercalate "\n\n"
                (((blocks.map (fun b => b.1)).filterMap
                  literotica_process_literal).map String.mk))) := by
  have hfind : findPageTexts (String.mk (buildPageText junk0 blocks)).data
      = blocks.map (fun b => b.1) := by
    show findPageTexts (buildPageText junk0 blocks) = _
    exact find_build blocks junk0 hclean hblocks
  have hext : literotica_extract_page_texts (String.mk (buildPageText junk0 blocks))
      = ((blocks.map (fun b => b.1)).filterMap literotica_process_literal).map String.mk := by
    simp only [literotica_extract_page_texts, hfind]
  refine ⟨hext, ?_⟩
  intro hne
  simp only [literotica_convert_html_to_markdown, hext]
  rcases hsegs : ((blocks.map (fun b => b.1)).filterMap
      literotica_process_literal).map String.mk with _ | ⟨s, ss⟩
  · exact absurd hsegs hne
  · rcases literotica_extract_heading headline with _ | h <;> simp

/-- C8 witness: the spec's example scenario — two escaped literals and
a headline produce the two unescaped sentences separated by a blank
line under a single `# ` heading line. -/
theorem literotica_pagetext_output_witness :
    literotica_convert_html_to_markdown (some "My Story")
        (String.mk (buildPageText "var x = \x7b".data
          [("It all started.".data, "\x7d; y = \x7b".data),
           ("\\\"Reply text.\\\"".data, "\x7d;".data)]))
      = some "# My Story\n\nIt all started.\n\n\"Reply text.\"\n" := by
  have h := (literotica_pagetext_output "var x = \x7b".data
      [("It all started.".data, "\x7d; y = \x7b".data),
       ("\\\"Reply text.\\\"".data, "\x7d;".data)]
      (some "My Story") (by decide) (by decide)).2 (by decide)
  rw [h]
  decide
